import Mathlib

set_option maxHeartbeats 1000000

/-!
Verification of the AIG algebraic rewriting pass
(`include/mockturtle/algorithms/aig_algebraic_rewriting.hpp`).

The pass operates over an abstract AND-inverter-graph network that is an
external collaborator of the repository.  The network is modelled here from
the specification: nodes are primary inputs or two-input AND gates stored in
an arena indexed by natural numbers, signals are (node, inversion) pairs,
substitution rewires all consumers of a node, and the per-node level is the
longest distance to a primary input.  Acyclicity is witnessed by a rank
function carried with the graph; level and evaluation are computed with a
fuel bounded by the rank, which on well-formed graphs agrees with the true
structural value.
-/

/-- A signal: a node index together with a complementation (inversion) flag. -/
structure Signal where
  node : Nat
  inv : Bool
deriving DecidableEq

/-- Modelled from the spec: a node of the AND-inverter graph is either a
primary input or a two-input AND gate over two fanin signals. -/
inductive NodeDef where
  | pi : NodeDef
  | gate : Signal → Signal → NodeDef
deriving DecidableEq

/-- Modelled from the spec (the `aig_network` / `depth_view` collaborators are
not part of the repository sources): the network state.  `nodes` is the arena
of node definitions, `outputs` the designated output signals, `rk` a rank
function witnessing acyclicity (every gate's fanins have strictly smaller
rank), and `dead` the list of nodes retired by substitution. -/
structure Aig where
  nodes : List NodeDef
  outputs : List Signal
  rk : Nat → Nat
  dead : List Nat

/-- Level of a node, computed with explicit fuel: primary inputs (and missing
nodes) have level 0, a gate is one more than the maximum level of its two
fanins. -/
def levelF (ns : List NodeDef) : Nat → Nat → Nat
  | 0, _ => 0
  | f + 1, i =>
    match ns[i]? with
    | some (NodeDef.gate a b) => max (levelF ns f a.node) (levelF ns f b.node) + 1
    | _ => 0

/-- Boolean value of a node under an assignment of the primary inputs,
computed with explicit fuel. -/
def evalF (ns : List NodeDef) (env : Nat → Bool) : Nat → Nat → Bool
  | 0, _ => false
  | f + 1, i =>
    match ns[i]? with
    | some NodeDef.pi => env i
    | some (NodeDef.gate a b) =>
        (Bool.xor a.inv (evalF ns env f a.node)) && (Bool.xor b.inv (evalF ns env f b.node))
    | none => false

/-- Canonical level: the fuel is the node's own rank plus one, which is
sufficient on well-formed graphs. -/
def lvlR (ns : List NodeDef) (rk : Nat → Nat) (i : Nat) : Nat :=
  levelF ns (rk i + 1) i

/-- Canonical node evaluation, with fuel taken from the rank. -/
def evalNodeR (ns : List NodeDef) (rk : Nat → Nat) (env : Nat → Bool) (i : Nat) : Bool :=
  evalF ns env (rk i + 1) i

/-- Level of a node of a network. -/
def lvl (g : Aig) (i : Nat) : Nat := lvlR g.nodes g.rk i

/-- Value of a node of a network under an input assignment. -/
def evalNd (g : Aig) (env : Nat → Bool) (i : Nat) : Bool :=
  evalNodeR g.nodes g.rk env i

/-- Value of a signal: the node's value, complemented when the signal is. -/
def evalS (g : Aig) (env : Nat → Bool) (s : Signal) : Bool :=
  Bool.xor s.inv (evalNd g env s.node)

/-- Values of all designated outputs. -/
def evalOuts (g : Aig) (env : Nat → Bool) : List Bool :=
  g.outputs.map (evalS g env)

/-- Maximum output depth: the largest level among the output nodes. -/
def outDepth (g : Aig) : Nat :=
  (g.outputs.map (fun s => lvl g s.node)).foldr max 0

/-- Well-formedness of the arena with respect to a rank function: every
gate's fanins are in range and have strictly smaller rank. -/
def BoundedL (ns : List NodeDef) (rk : Nat → Nat) : Prop :=
  ∀ i a b, ns[i]? = some (NodeDef.gate a b) →
    a.node < ns.length ∧ b.node < ns.length ∧ rk a.node < rk i ∧ rk b.node < rk i

/-- Boolean check of `BoundedL` at one index. -/
def defOk (ns : List NodeDef) (rk : Nat → Nat) (i : Nat) : Bool :=
  match ns[i]? with
  | some (NodeDef.gate a b) =>
      decide (a.node < ns.length) && decide (b.node < ns.length) &&
      decide (rk a.node < rk i) && decide (rk b.node < rk i)
  | _ => true

/-- Executable well-formedness check for a network. -/
def wfB (g : Aig) : Bool :=
  (List.range g.nodes.length).all (defOk g.nodes g.rk) &&
  g.outputs.all (fun s => decide (s.node < g.nodes.length))

/-- Well-formed network: rank-bounded arena and in-range outputs. -/
def Wf (g : Aig) : Prop :=
  BoundedL g.nodes g.rk ∧ ∀ s ∈ g.outputs, s.node < g.nodes.length

/-- Pattern extractor: view node `i` as a two-input AND, yielding its two
fanin signals in stored order; fails on primary inputs and missing nodes. -/
def extract_and (g : Aig) (i : Nat) : Option (Signal × Signal) :=
  match g.nodes[i]? with
  | some (NodeDef.gate a b) => some (a, b)
  | _ => none

/-- Modelled from the spec: constructing an AND of two signals appends a
fresh gate node and returns its (uncomplemented) signal. -/
def create_and (g : Aig) (a b : Signal) : Aig × Signal :=
  ({ g with nodes := g.nodes ++ [NodeDef.gate a b] }, ⟨g.nodes.length, false⟩)

/-- Modelled from the spec: NOT of a signal only flips the inversion flag. -/
def create_not (s : Signal) : Signal := ⟨s.node, !s.inv⟩

/-- Modelled from the spec: NAND is the complement of a fresh AND node. -/
def create_nand (g : Aig) (a b : Signal) : Aig × Signal :=
  let r := create_and g a b
  (r.1, ⟨r.2.node, true⟩)

/-- Redirect a signal referencing the substituted node `n` to the replacement
signal `t`, composing the complementations. -/
def substSig (n : Nat) (t : Signal) (s : Signal) : Signal :=
  if s.node = n then ⟨t.node, Bool.xor s.inv t.inv⟩ else s

/-- Rewire one node definition away from the substituted node. -/
def substDef (n : Nat) (t : Signal) : NodeDef → NodeDef
  | NodeDef.pi => NodeDef.pi
  | NodeDef.gate a b => NodeDef.gate (substSig n t a) (substSig n t b)

/-- Modelled from the spec: substitution redirects every consumer of node `n`
(and every output) to the replacement signal `t`, marks `n` dead, and installs
the given refreshed rank function. -/
def substituteNode (g : Aig) (n : Nat) (t : Signal) (rk : Nat → Nat) : Aig :=
  { nodes := g.nodes.map (substDef n t),
    outputs := g.outputs.map (substSig n t),
    rk := rk,
    dead := n :: g.dead }

/-- Refreshed rank after rewriting node `n`: old nodes keep eight times their
rank, the (at most seven) appended replacement nodes slot in just below the
substituted node's scaled rank. -/
def bumpRank (rk : Nat → Nat) (n len : Nat) : Nat → Nat :=
  fun v => if v < len then 8 * rk v else 8 * rk n - 7 + (v - len)

/-- Associativity rule, inner part: after the top-level orientation the
deeper operand `sr` must be uncomplemented and itself an AND; its children
are oriented so the shallower comes first and must not be level-tied.
Returns the oriented tuple (l, r, rl, rr) on a match. -/
def assocMatch2 (g : Aig) (sl sr : Signal) : Option (Signal × Signal × Signal × Signal) :=
  if sr.inv then none
  else
    match extract_and g sr.node with
    | none => none
    | some (srl0, srr0) =>
      if lvl g srl0.node > lvl g srr0.node then some (sl, sr, srr0, srl0)
      else if lvl g srl0.node = lvl g srr0.node then none
      else some (sl, sr, srl0, srr0)

/-- Associativity rule, matching phase (mirrors `try_associativity` up to the
point where nodes are created). -/
def assocMatch (g : Aig) (n : Nat) : Option (Signal × Signal × Signal × Signal) :=
  match extract_and g n with
  | none => none
  | some (sl0, sr0) =>
    if lvl g sl0.node > lvl g sr0.node + 1 then assocMatch2 g sr0 sl0
    else if lvl g sl0.node + 1 ≥ lvl g sr0.node then none
    else assocMatch2 g sl0 sr0

/-- Associativity rule, action phase: build `AND(AND(l, rl), rr)` and
substitute node `n` with it. -/
def assocApply (g : Aig) (n : Nat) (sl srl srr : Signal) : Aig :=
  let len := g.nodes.length
  let r1 := create_and g sl srl
  let r2 := create_and r1.1 r1.2 srr
  substituteNode r2.1 n r2.2 (bumpRank g.rk n len)

/-- The associativity rule as in the source: returns the (possibly updated)
network and whether it fired. -/
def try_associativity (g : Aig) (n : Nat) : Aig × Bool :=
  match assocMatch g n with
  | none => (g, false)
  | some (sl, _, srl, srr) => (assocApply g n sl srl srr, true)

/-- Distributivity rule: search for the shared node between the two operand
pairs in the fixed order `A==D`, `A==C`, `B==D`, `B==C`, and normalize by
intra-pair swaps; the shared node ends second in the left pair and first in
the right pair. -/
def distNorm (sll slr srl srr : Signal) : Option (Signal × Signal × Signal × Signal) :=
  if sll.node = srr.node then some (slr, sll, srr, srl)
  else if sll.node = srl.node then some (slr, sll, srl, srr)
  else if slr.node = srr.node then some (sll, slr, srr, srl)
  else if slr.node = srl.node then some (sll, slr, srl, srr)
  else none

/-- Distributivity rule, matching phase (mirrors `try_distributivity` up to
node creation).  Returns the normalized tuple (distinct-left, common-left,
common-right, distinct-right). -/
def distMatch (g : Aig) (n : Nat) : Option (Signal × Signal × Signal × Signal) :=
  match extract_and g n with
  | none => none
  | some (sl0, sr0) =>
    if sl0.inv = false ∨ sr0.inv = false then none
    else
      match extract_and g sl0.node with
      | none => none
      | some (sll0, slr0) =>
        match extract_and g sr0.node with
        | none => none
        | some (srl0, srr0) =>
          match distNorm sll0 slr0 srl0 srr0 with
          | none => none
          | some (sll, slr, srl, srr) =>
            if lvl g slr.node ≤ lvl g sll.node ∨ lvl g slr.node ≤ lvl g srr.node then none
            else if slr.inv ≠ srl.inv then none
            else some (sll, slr, srl, srr)

/-- Distributivity rule, action phase: build
`NAND(common, NAND(NOT distinct1, NOT distinct2))` and substitute. -/
def distApply (g : Aig) (n : Nat) (sll slr srr : Signal) : Aig :=
  let len := g.nodes.length
  let r1 := create_nand g (create_not sll) (create_not srr)
  let r2 := create_nand r1.1 slr r1.2
  substituteNode r2.1 n r2.2 (bumpRank g.rk n len)

/-- The distributivity rule as in the source. -/
def try_distributivity (g : Aig) (n : Nat) : Aig × Bool :=
  match distMatch g n with
  | none => (g, false)
  | some (sll, slr, _, srr) => (distApply g n sll slr srr, true)

/-- Three-layer distributivity, innermost step: the deepest operand `srr`
must be complemented and an AND; its children are oriented shallower-first
and must not be level-tied. -/
def tl3 (g : Aig) (sl sr srl srr : Signal) :
    Option (Signal × Signal × Signal × Signal × Signal × Signal) :=
  if srr.inv = false then none
  else
    match extract_and g srr.node with
    | none => none
    | some (srrl0, srrr0) =>
      if lvl g srrl0.node > lvl g srrr0.node then some (sl, sr, srl, srr, srrr0, srrl0)
      else if lvl g srrl0.node = lvl g srrr0.node then none
      else some (sl, sr, srl, srr, srrl0, srrr0)

/-- Three-layer distributivity, middle step: the deeper operand `sr` must be
complemented and an AND; its children are oriented with a one-level gap. -/
def tl2 (g : Aig) (sl sr : Signal) :
    Option (Signal × Signal × Signal × Signal × Signal × Signal) :=
  if sr.inv = false then none
  else
    match extract_and g sr.node with
    | none => none
    | some (srl0, srr0) =>
      if lvl g srl0.node > lvl g srr0.node + 1 then tl3 g sl sr srr0 srl0
      else if lvl g srl0.node + 1 ≥ lvl g srr0.node then none
      else tl3 g sl sr srl0 srr0

/-- Three-layer distributivity, matching phase (mirrors
`try_3l_distributivity` up to node creation). -/
def tlMatch (g : Aig) (n : Nat) :
    Option (Signal × Signal × Signal × Signal × Signal × Signal) :=
  match extract_and g n with
  | none => none
  | some (sl0, sr0) =>
    if lvl g sl0.node > lvl g sr0.node + 2 then tl2 g sr0 sl0
    else if lvl g sl0.node + 2 ≥ lvl g sr0.node then none
    else tl2 g sl0 sr0

/-- Three-layer distributivity, action phase: build
`NAND(NAND(l, NOT rl), NAND(AND(l, rrl), rrr))` and substitute. -/
def tlApply (g : Aig) (n : Nat) (sl srl srrl srrr : Signal) : Aig :=
  let len := g.nodes.length
  let r1 := create_nand g sl (create_not srl)
  let r2 := create_and r1.1 sl srrl
  let r3 := create_nand r2.1 r2.2 srrr
  let r4 := create_nand r3.1 r1.2 r3.2
  substituteNode r4.1 n r4.2 (bumpRank g.rk n len)

/-- The three-layer distributivity rule as in the source. -/
def try_3l_distributivity (g : Aig) (n : Nat) : Aig × Bool :=
  match tlMatch g n with
  | none => (g, false)
  | some (sl, _, srl, _, srrl, srrr) => (tlApply g n sl srl srrl srrr, true)

/-- Try the rules on node `n` in the fixed priority order; the first match
performs its substitution and no further rule is tried. -/
def try_algebraic_rules (g : Aig) (n : Nat) : Aig × Bool :=
  let r1 := try_associativity g n
  if r1.2 then r1
  else
    let r2 := try_distributivity g n
    if r2.2 then r2
    else try_3l_distributivity g n

/-- A node is visited by a scan when it is a gate and not retired. -/
def aliveGate (g : Aig) (i : Nat) : Bool :=
  (match g.nodes[i]? with
   | some (NodeDef.gate _ _) => true
   | _ => false) && !(g.dead.contains i)

/-- One pass over a list of candidate nodes, threading the network and the
changed flag. -/
def scanGo : List Nat → Aig → Bool → Aig × Bool
  | [], g, ch => (g, ch)
  | i :: rest, g, ch =>
    if aliveGate g i then
      let r := try_algebraic_rules g i
      scanGo rest r.1 (ch || r.2)
    else scanGo rest g ch

/-- One full scan: visit every gate index present at the start of the scan. -/
def scan (g : Aig) : Aig × Bool :=
  scanGo (List.range g.nodes.length) g false

/-- The network after `k` full scans. -/
def scanIter : Nat → Aig → Aig
  | 0, g => g
  | k + 1, g => (scan (scanIter k g)).1

/-- The fixpoint driver with fuel: scans repeatedly, stopping after the first
scan that makes no change; `none` when the fuel is exhausted first. -/
def runO : Nat → Aig → Option Aig
  | 0, _ => none
  | f + 1, g =>
    let r := scan g
    if r.2 then runO f r.1 else some g

/-- Number of changing scans before convergence, with fuel. -/
def runCount : Nat → Aig → Option Nat
  | 0, _ => none
  | f + 1, g =>
    let r := scan g
    if r.2 then (runCount f r.1).map (· + 1) else some 0

/-- A pre-existing signal suitable as a fanin of a replacement node: in range
and a strict descendant (smaller rank) of the substituted node. -/
def OldSig (rk : Nat → Nat) (n len : Nat) (s : Signal) : Prop :=
  s.node < len ∧ rk s.node < rk n

/-- Shape of the appended replacement nodes: each gate's fanins are either
pre-existing strict descendants of `n` or earlier replacement nodes. -/
def NewsOk (rk : Nat → Nat) (n len : Nat) (news : List NodeDef) : Prop :=
  ∀ (k : Nat) (a b : Signal), news[k]? = some (NodeDef.gate a b) →
    (OldSig rk n len a ∨ (len ≤ a.node ∧ a.node - len < k)) ∧
    (OldSig rk n len b ∨ (len ≤ b.node ∧ b.node - len < k))

/-- The network produced by appending the replacement nodes `news` and then
substituting node `n` with the replacement signal `t`. -/
def commitAig (g : Aig) (n : Nat) (news : List NodeDef) (t : Signal) : Aig :=
  { nodes := (g.nodes ++ news).map (substDef n t),
    outputs := g.outputs.map (substSig n t),
    rk := bumpRank g.rk n g.nodes.length,
    dead := n :: g.dead }

/-- Bundled conclusions of one successful rewrite step: well-formedness is
preserved, every output computes the same Boolean function, the maximum
output depth does not increase. -/
def GoodStep (g g2 : Aig) : Prop :=
  Wf g2 ∧ (∀ env, evalOuts g2 env = evalOuts g env) ∧ outDepth g2 ≤ outDepth g

/-- Orientation used by the associativity rule on the top pair: swap when the
left operand is more than one level deeper than the right. -/
def orient1 (g : Aig) (a b : Signal) : Signal × Signal :=
  if lvl g a.node > lvl g b.node + 1 then (b, a) else (a, b)

/-- Orientation of a pair so the shallower signal comes first. -/
def orientMin (g : Aig) (a b : Signal) : Signal × Signal :=
  if lvl g a.node > lvl g b.node then (b, a) else (a, b)

/-- Orientation used by the three-layer rule on the top pair: swap when the
left operand is more than two levels deeper. -/
def orient2 (g : Aig) (a b : Signal) : Signal × Signal :=
  if lvl g a.node > lvl g b.node + 2 then (b, a) else (a, b)

/-- The associativity rule's firing condition as the specification states it:
`n` is an AND `a · b`; after orienting so `r` is the deeper operand (swapping
when `Level(l) > Level(r) + 1`) the strict gap `Level(l) + 1 < Level(r)`
holds; `r` is uncomplemented and itself an AND whose children, ordered so
`rl` has the smaller level, are not level-tied. -/
def AssocFire (g : Aig) (n : Nat) (l r rl rr : Signal) : Prop :=
  ∃ a b, g.nodes[n]? = some (NodeDef.gate a b) ∧ (l, r) = orient1 g a b ∧
    lvl g l.node + 1 < lvl g r.node ∧ r.inv = false ∧
    ∃ c d, g.nodes[r.node]? = some (NodeDef.gate c d) ∧ (rl, rr) = orientMin g c d ∧
      lvl g rl.node ≠ lvl g rr.node

/-- The distributivity rule's firing condition as the specification states
it: both operands are complemented ANDs, the two pairs share a node (found by
the fixed search order of `distNorm`), the common factor is strictly deeper
than both distinct branches, and its two occurrences have equal
complementation. -/
def DistFire (g : Aig) (n : Nat) (sll slr srl srr : Signal) : Prop :=
  ∃ a b, g.nodes[n]? = some (NodeDef.gate a b) ∧ a.inv = true ∧ b.inv = true ∧
    ∃ p q u v, g.nodes[a.node]? = some (NodeDef.gate p q) ∧
      g.nodes[b.node]? = some (NodeDef.gate u v) ∧
      distNorm p q u v = some (sll, slr, srl, srr) ∧
      lvl g sll.node < lvl g slr.node ∧ lvl g srr.node < lvl g slr.node ∧
      slr.inv = srl.inv

/-- The three-layer distributivity rule's firing condition as the
specification states it: a two-level depth gap after orientation, a
complemented deeper operand whose own deeper child (one-level gap after
orientation) is again complemented, and untied innermost children. -/
def TlFire (g : Aig) (n : Nat) (l r rl rr rrl rrr : Signal) : Prop :=
  ∃ a b, g.nodes[n]? = some (NodeDef.gate a b) ∧ (l, r) = orient2 g a b ∧
    lvl g l.node + 2 < lvl g r.node ∧ r.inv = true ∧
    ∃ c d, g.nodes[r.node]? = some (NodeDef.gate c d) ∧ (rl, rr) = orient1 g c d ∧
      lvl g rl.node + 1 < lvl g rr.node ∧ rr.inv = true ∧
      ∃ e f2, g.nodes[rr.node]? = some (NodeDef.gate e f2) ∧
        (rrl, rrr) = orientMin g e f2 ∧ lvl g rrl.node ≠ lvl g rrr.node

/-- Concrete network where the associativity rule fires on node 6:
the output AND pairs a primary input with a depth-3 chain. -/
def gA : Aig :=
  { nodes := [NodeDef.pi, NodeDef.pi, NodeDef.pi, NodeDef.pi,
      NodeDef.gate ⟨2, false⟩ ⟨3, false⟩,
      NodeDef.gate ⟨1, false⟩ ⟨4, false⟩,
      NodeDef.gate ⟨0, false⟩ ⟨5, false⟩],
    outputs := [⟨6, false⟩],
    rk := fun i => i,
    dead := [] }

/-- Concrete network where the distributivity rule fires on node 6:
node 6 is the AND of two complemented ANDs sharing the deep node 3. -/
def gC5 : Aig :=
  { nodes := [NodeDef.pi, NodeDef.pi, NodeDef.pi,
      NodeDef.gate ⟨2, false⟩ ⟨2, false⟩,
      NodeDef.gate ⟨0, false⟩ ⟨3, false⟩,
      NodeDef.gate ⟨3, false⟩ ⟨1, false⟩,
      NodeDef.gate ⟨4, true⟩ ⟨5, true⟩],
    outputs := [⟨6, false⟩],
    rk := fun i => i,
    dead := [] }

/-- Concrete network where the three-layer distributivity rule fires on
node 6: a doubly nested complemented chain with a shallow top operand. -/
def gT : Aig :=
  { nodes := [NodeDef.pi, NodeDef.pi, NodeDef.pi,
      NodeDef.gate ⟨2, false⟩ ⟨2, false⟩,
      NodeDef.gate ⟨1, false⟩ ⟨3, false⟩,
      NodeDef.gate ⟨1, false⟩ ⟨4, true⟩,
      NodeDef.gate ⟨0, false⟩ ⟨5, true⟩],
    outputs := [⟨6, false⟩],
    rk := fun i => i,
    dead := [] }

/-- Concrete already-balanced network on which no rule fires. -/
def gF : Aig :=
  { nodes := [NodeDef.pi, NodeDef.pi, NodeDef.gate ⟨0, false⟩ ⟨1, false⟩],
    outputs := [⟨2, false⟩],
    rk := fun i => i,
    dead := [] }

theorem wf_of_wfB (g : Aig) (h : wfB g = true) : Wf g := by
  unfold wfB at h
  rw [Bool.and_eq_true, List.all_eq_true, List.all_eq_true] at h
  constructor
  · intro i a b hget
    have hi : i < g.nodes.length := by
      cases hlt : Nat.decLt i g.nodes.length with
      | isTrue h => exact h
      | isFalse h =>
        rw [List.getElem?_eq_none (by omega)] at hget
        cases hget
    have := h.1 i (List.mem_range.mpr hi)
    unfold defOk at this
    rw [hget] at this
    simp only [Bool.and_eq_true, decide_eq_true_eq] at this
    exact ⟨this.1.1.1, this.1.1.2, this.1.2, this.2⟩
  · intro s hs
    have := h.2 s hs
    simpa using this

theorem extract_and_some {g : Aig} {i : Nat} {a b : Signal} :
    extract_and g i = some (a, b) ↔ g.nodes[i]? = some (NodeDef.gate a b) := by
  unfold extract_and
  cases h : g.nodes[i]? with
  | none => simp
  | some d =>
    cases d with
    | pi => simp
    | gate x y =>
      constructor
      · intro hxy
        simp only [Option.some.injEq, Prod.mk.injEq] at hxy
        rw [hxy.1, hxy.2]
      · intro hxy
        simp only [Option.some.injEq, NodeDef.gate.injEq] at hxy
        rw [hxy.1, hxy.2]

theorem levelF_congr {ns : List NodeDef} {rk : Nat → Nat} (h : BoundedL ns rk) :
    ∀ k i f f', rk i ≤ k → rk i < f → rk i < f' → levelF ns f i = levelF ns f' i := by
  intro k
  induction k with
  | zero =>
    intro i f f' hk hf hf'
    match f, f', hf, hf' with
    | f + 1, f' + 1, _, _ =>
      simp only [levelF]
      cases hget : ns[i]? with
      | none => rfl
      | some d =>
        cases d with
        | pi => rfl
        | gate a b =>
          exfalso
          have := (h i a b hget).2.2.1
          omega
  | succ k IH =>
    intro i f f' hk hf hf'
    match f, f', hf, hf' with
    | f + 1, f' + 1, _, _ =>
      simp only [levelF]
      cases hget : ns[i]? with
      | none => rfl
      | some d =>
        cases d with
        | pi => rfl
        | gate a b =>
          have ha := (h i a b hget).2.2.1
          have hb := (h i a b hget).2.2.2
          dsimp only
          rw [IH a.node f f' (by omega) (by omega) (by omega),
              IH b.node f f' (by omega) (by omega) (by omega)]

theorem evalF_congr {ns : List NodeDef} {rk : Nat → Nat} (h : BoundedL ns rk)
    (env : Nat → Bool) :
    ∀ k i f f', rk i ≤ k → rk i < f → rk i < f' → evalF ns env f i = evalF ns env f' i := by
  intro k
  induction k with
  | zero =>
    intro i f f' hk hf hf'
    match f, f', hf, hf' with
    | f + 1, f' + 1, _, _ =>
      simp only [evalF]
      cases hget : ns[i]? with
      | none => rfl
      | some d =>
        cases d with
        | pi => rfl
        | gate a b =>
          exfalso
          have := (h i a b hget).2.2.1
          omega
  | succ k IH =>
    intro i f f' hk hf hf'
    match f, f', hf, hf' with
    | f + 1, f' + 1, _, _ =>
      simp only [evalF]
      cases hget : ns[i]? with
      | none => rfl
      | some d =>
        cases d with
        | pi => rfl
        | gate a b =>
          have ha := (h i a b hget).2.2.1
          have hb := (h i a b hget).2.2.2
          dsimp only
          rw [IH a.node f f' (by omega) (by omega) (by omega),
              IH b.node f f' (by omega) (by omega) (by omega)]

theorem levelF_succ (ns : List NodeDef) (f i : Nat) :
    levelF ns (f + 1) i =
      match ns[i]? with
      | some (NodeDef.gate a b) => max (levelF ns f a.node) (levelF ns f b.node) + 1
      | _ => 0 := rfl

theorem evalF_succ (ns : List NodeDef) (env : Nat → Bool) (f i : Nat) :
    evalF ns env (f + 1) i =
      match ns[i]? with
      | some NodeDef.pi => env i
      | some (NodeDef.gate a b) =>
          (Bool.xor a.inv (evalF ns env f a.node)) && (Bool.xor b.inv (evalF ns env f b.node))
      | none => false := rfl

theorem lvlR_gate {ns : List NodeDef} {rk : Nat → Nat} {i : Nat} {a b : Signal}
    (h : BoundedL ns rk) (hget : ns[i]? = some (NodeDef.gate a b)) :
    lvlR ns rk i = max (lvlR ns rk a.node) (lvlR ns rk b.node) + 1 := by
  have ha := (h i a b hget).2.2.1
  have hb := (h i a b hget).2.2.2
  unfold lvlR
  rw [levelF_succ, hget]
  dsimp only
  rw [levelF_congr h (rk a.node) a.node (rk i) (rk a.node + 1) le_rfl ha (by omega),
      levelF_congr h (rk b.node) b.node (rk i) (rk b.node + 1) le_rfl hb (by omega)]

theorem lvlR_pi {ns : List NodeDef} {rk : Nat → Nat} {i : Nat}
    (hget : ns[i]? = some NodeDef.pi) : lvlR ns rk i = 0 := by
  unfold lvlR
  rw [levelF_succ, hget]

theorem lvlR_none {ns : List NodeDef} {rk : Nat → Nat} {i : Nat}
    (hget : ns[i]? = none) : lvlR ns rk i = 0 := by
  unfold lvlR
  rw [levelF_succ, hget]

theorem evalNodeR_gate {ns : List NodeDef} {rk : Nat → Nat} {i : Nat} {a b : Signal}
    (h : BoundedL ns rk) (env : Nat → Bool) (hget : ns[i]? = some (NodeDef.gate a b)) :
    evalNodeR ns rk env i =
      ((Bool.xor a.inv (evalNodeR ns rk env a.node)) &&
       (Bool.xor b.inv (evalNodeR ns rk env b.node))) := by
  have ha := (h i a b hget).2.2.1
  have hb := (h i a b hget).2.2.2
  unfold evalNodeR
  rw [evalF_succ, hget]
  dsimp only
  rw [evalF_congr h env (rk a.node) a.node (rk i) (rk a.node + 1) le_rfl ha (by omega),
      evalF_congr h env (rk b.node) b.node (rk i) (rk b.node + 1) le_rfl hb (by omega)]

theorem evalNodeR_pi {ns : List NodeDef} {rk : Nat → Nat} {i : Nat} (env : Nat → Bool)
    (hget : ns[i]? = some NodeDef.pi) : evalNodeR ns rk env i = env i := by
  unfold evalNodeR
  rw [evalF_succ, hget]

theorem levelF_append {ns more : List NodeDef}
    (hcl : ∀ (i : Nat) (a b : Signal), ns[i]? = some (NodeDef.gate a b) →
      a.node < ns.length ∧ b.node < ns.length) :
    ∀ f i, i < ns.length → levelF (ns ++ more) f i = levelF ns f i := by
  intro f
  induction f with
  | zero => intro i _; rfl
  | succ f IH =>
    intro i hi
    have hg : (ns ++ more)[i]? = ns[i]? := List.getElem?_append_left hi
    simp only [levelF, hg]
    cases hget : ns[i]? with
    | none => rfl
    | some d =>
      cases d with
      | pi => rfl
      | gate a b =>
        dsimp only
        rw [IH a.node (hcl i a b hget).1, IH b.node (hcl i a b hget).2]

theorem evalF_append {ns more : List NodeDef} (env : Nat → Bool)
    (hcl : ∀ (i : Nat) (a b : Signal), ns[i]? = some (NodeDef.gate a b) →
      a.node < ns.length ∧ b.node < ns.length) :
    ∀ f i, i < ns.length → evalF (ns ++ more) env f i = evalF ns env f i := by
  intro f
  induction f with
  | zero => intro i _; rfl
  | succ f IH =>
    intro i hi
    have hg : (ns ++ more)[i]? = ns[i]? := List.getElem?_append_left hi
    simp only [evalF, hg]
    cases hget : ns[i]? with
    | none => rfl
    | some d =>
      cases d with
      | pi => rfl
      | gate a b =>
        dsimp only
        rw [IH a.node (hcl i a b hget).1, IH b.node (hcl i a b hget).2]

theorem boundedL_closed {ns : List NodeDef} {rk : Nat → Nat} (h : BoundedL ns rk) :
    ∀ (i : Nat) (a b : Signal), ns[i]? = some (NodeDef.gate a b) →
      a.node < ns.length ∧ b.node < ns.length :=
  fun i a b hget => ⟨(h i a b hget).1, (h i a b hget).2.1⟩

theorem lvlR_ext_old {ns more : List NodeDef} {rk : Nat → Nat} {n : Nat}
    (h : BoundedL ns rk) {j : Nat} (hj : j < ns.length) :
    lvlR (ns ++ more) (bumpRank rk n ns.length) j = lvlR ns rk j := by
  unfold lvlR bumpRank
  rw [if_pos hj]
  rw [levelF_append (boundedL_closed h) _ j hj]
  exact levelF_congr h (rk j) j (8 * rk j + 1) (rk j + 1) le_rfl (by omega) (by omega)

theorem evalNodeR_ext_old {ns more : List NodeDef} {rk : Nat → Nat} {n : Nat}
    (h : BoundedL ns rk) (env : Nat → Bool) {j : Nat} (hj : j < ns.length) :
    evalNodeR (ns ++ more) (bumpRank rk n ns.length) env j = evalNodeR ns rk env j := by
  unfold evalNodeR bumpRank
  rw [if_pos hj]
  rw [evalF_append env (boundedL_closed h) _ j hj]
  exact evalF_congr h env (rk j) j (8 * rk j + 1) (rk j + 1) le_rfl (by omega) (by omega)

theorem evalNodeR_none {ns : List NodeDef} {rk : Nat → Nat} {i : Nat} (env : Nat → Bool)
    (hget : ns[i]? = none) : evalNodeR ns rk env i = false := by
  unfold evalNodeR
  rw [evalF_succ, hget]

theorem getElem?_some_lt_length {α : Type} {l : List α} {i : Nat} {x : α}
    (h : l[i]? = some x) : i < l.length := by
  by_contra hc
  rw [List.getElem?_eq_none (by omega)] at h
  cases h

theorem boundedL_ext {ns : List NodeDef} {rk : Nat → Nat} {n : Nat} {news : List NodeDef}
    (h : BoundedL ns rk) (hrkn : 0 < rk n) (hnews : NewsOk rk n ns.length news) :
    BoundedL (ns ++ news) (bumpRank rk n ns.length) := by
  intro i a b hget
  rw [List.length_append]
  rcases Nat.lt_or_ge i ns.length with hi | hi
  · rw [List.getElem?_append_left hi] at hget
    have hh := h i a b hget
    refine ⟨by omega, by omega, ?_, ?_⟩
    · unfold bumpRank
      rw [if_pos hh.1, if_pos hi]
      omega
    · unfold bumpRank
      rw [if_pos hh.2.1, if_pos hi]
      omega
  · rw [List.getElem?_append_right hi] at hget
    have hk : i - ns.length < news.length := getElem?_some_lt_length hget
    have hcond := hnews (i - ns.length) a b hget
    have hbi : bumpRank rk n ns.length i = 8 * rk n - 7 + (i - ns.length) := by
      unfold bumpRank
      rw [if_neg (by omega)]
    refine ⟨?_, ?_, ?_, ?_⟩
    · rcases hcond.1 with ⟨hc1, hc2⟩ | ⟨hc1, hc2⟩
      · omega
      · omega
    · rcases hcond.2 with ⟨hc1, hc2⟩ | ⟨hc1, hc2⟩
      · omega
      · omega
    · rw [hbi]
      rcases hcond.1 with ⟨hc1, hc2⟩ | ⟨hc1, hc2⟩
      · unfold bumpRank
        rw [if_pos hc1]
        omega
      · unfold bumpRank
        rw [if_neg (by omega)]
        omega
    · rw [hbi]
      rcases hcond.2 with ⟨hc1, hc2⟩ | ⟨hc1, hc2⟩
      · unfold bumpRank
        rw [if_pos hc1]
        omega
      · unfold bumpRank
        rw [if_neg (by omega)]
        omega

theorem substSig_node_eq {n : Nat} {t s : Signal} (h : s.node = n) :
    substSig n t s = ⟨t.node, Bool.xor s.inv t.inv⟩ := by
  unfold substSig
  rw [if_pos h]

theorem substSig_node_ne {n : Nat} {t s : Signal} (h : s.node ≠ n) :
    substSig n t s = s := by
  unfold substSig
  rw [if_neg h]

theorem getElem?_map_subst {ns : List NodeDef} {n : Nat} {t : Signal} {i : Nat}
    {a b : Signal} (hget : ns[i]? = some (NodeDef.gate a b)) :
    (ns.map (substDef n t))[i]? =
      some (NodeDef.gate (substSig n t a) (substSig n t b)) := by
  rw [List.getElem?_map, hget]
  rfl

theorem getElem?_map_subst_pi {ns : List NodeDef} {n : Nat} {t : Signal} {i : Nat}
    (hget : ns[i]? = some NodeDef.pi) :
    (ns.map (substDef n t))[i]? = some NodeDef.pi := by
  rw [List.getElem?_map, hget]
  rfl

theorem getElem?_map_subst_none {ns : List NodeDef} {n : Nat} {t : Signal} {i : Nat}
    (hget : ns[i]? = none) : (ns.map (substDef n t))[i]? = none := by
  rw [List.getElem?_map, hget]
  rfl

theorem boundedL_subst {ns : List NodeDef} {rk : Nat → Nat} {n : Nat} {t : Signal}
    (h : BoundedL ns rk) (ht : t.node < ns.length) (hle : rk t.node ≤ rk n) :
    BoundedL (ns.map (substDef n t)) rk := by
  intro i a b hget
  rw [List.getElem?_map] at hget
  cases hd : ns[i]? with
  | none => rw [hd] at hget; cases hget
  | some d =>
    rw [hd] at hget
    cases d with
    | pi => cases hget
    | gate a0 b0 =>
      have hg : substDef n t (NodeDef.gate a0 b0) = NodeDef.gate a b :=
        Option.some.inj hget
      have h12 := NodeDef.gate.inj hg
      have ha : a = substSig n t a0 := h12.1.symm
      have hbb : b = substSig n t b0 := h12.2.symm
      have hh := h i a0 b0 hd
      rw [List.length_map, ha, hbb]
      constructor
      · by_cases hc : a0.node = n
        · rw [substSig_node_eq hc]
          exact ht
        · rw [substSig_node_ne hc]
          exact hh.1
      constructor
      · by_cases hc : b0.node = n
        · rw [substSig_node_eq hc]
          exact ht
        · rw [substSig_node_ne hc]
          exact hh.2.1
      constructor
      · by_cases hc : a0.node = n
        · rw [substSig_node_eq hc]
          have := hh.2.2.1
          rw [hc] at this
          exact lt_of_le_of_lt hle this
        · rw [substSig_node_ne hc]
          exact hh.2.2.1
      · by_cases hc : b0.node = n
        · rw [substSig_node_eq hc]
          have := hh.2.2.2
          rw [hc] at this
          exact lt_of_le_of_lt hle this
        · rw [substSig_node_ne hc]
          exact hh.2.2.2

theorem evalNodeR_subst {ns : List NodeDef} {rk : Nat → Nat} {n : Nat} {t : Signal}
    (hsub : BoundedL (ns.map (substDef n t)) rk) (hb : BoundedL ns rk)
    (env : Nat → Bool)
    (heq : Bool.xor t.inv (evalNodeR ns rk env t.node) = evalNodeR ns rk env n) :
    ∀ k i, rk i ≤ k →
      evalNodeR (ns.map (substDef n t)) rk env i = evalNodeR ns rk env i := by
  intro k
  induction k with
  | zero =>
    intro i hk
    cases hd : ns[i]? with
    | none => rw [evalNodeR_none env (getElem?_map_subst_none hd), evalNodeR_none env hd]
    | some d =>
      cases d with
      | pi => rw [evalNodeR_pi env (getElem?_map_subst_pi hd), evalNodeR_pi env hd]
      | gate a b =>
        exfalso
        have := (hb i a b hd).2.2.1
        omega
  | succ k IH =>
    intro i hk
    cases hd : ns[i]? with
    | none => rw [evalNodeR_none env (getElem?_map_subst_none hd), evalNodeR_none env hd]
    | some d =>
      cases d with
      | pi => rw [evalNodeR_pi env (getElem?_map_subst_pi hd), evalNodeR_pi env hd]
      | gate a b =>
        rw [evalNodeR_gate hsub env (getElem?_map_subst hd), evalNodeR_gate hb env hd]
        have hfan : ∀ s : Signal, rk s.node < rk i →
            (if s.node = n then rk t.node < rk i else True) →
            Bool.xor (substSig n t s).inv
              (evalNodeR (ns.map (substDef n t)) rk env (substSig n t s).node) =
            Bool.xor s.inv (evalNodeR ns rk env s.node) := by
          intro s hs hcond
          by_cases hc : s.node = n
          · rw [substSig_node_eq hc]
            rw [if_pos hc] at hcond
            have hrec := IH t.node (by omega)
            show Bool.xor (Bool.xor s.inv t.inv) _ = _
            rw [hrec, Bool.xor_assoc, heq, hc]
          · rw [substSig_node_ne hc]
            exact congrArg (Bool.xor s.inv) (IH s.node (by omega))
        have hsubi := hsub i (substSig n t a) (substSig n t b) (getElem?_map_subst hd)
        have hbi := hb i a b hd
        have h1 : (if a.node = n then rk t.node < rk i else True) := by
          by_cases hc : a.node = n
          · rw [if_pos hc]
            have := hsubi.2.2.1
            rw [substSig_node_eq hc] at this
            exact this
          · rw [if_neg hc]
            trivial
        have h2 : (if b.node = n then rk t.node < rk i else True) := by
          by_cases hc : b.node = n
          · rw [if_pos hc]
            have := hsubi.2.2.2
            rw [substSig_node_eq hc] at this
            exact this
          · rw [if_neg hc]
            trivial
        rw [hfan a hbi.2.2.1 h1, hfan b hbi.2.2.2 h2]

theorem lvlR_subst_le {ns : List NodeDef} {rk : Nat → Nat} {n : Nat} {t : Signal}
    (hsub : BoundedL (ns.map (substDef n t)) rk) (hb : BoundedL ns rk)
    (hle : lvlR ns rk t.node ≤ lvlR ns rk n) :
    ∀ k i, rk i ≤ k →
      lvlR (ns.map (substDef n t)) rk i ≤ lvlR ns rk i := by
  intro k
  induction k with
  | zero =>
    intro i hk
    cases hd : ns[i]? with
    | none => rw [lvlR_none (getElem?_map_subst_none hd), lvlR_none hd]
    | some d =>
      cases d with
      | pi => rw [lvlR_pi (getElem?_map_subst_pi hd), lvlR_pi hd]
      | gate a b =>
        exfalso
        have := (hb i a b hd).2.2.1
        omega
  | succ k IH =>
    intro i hk
    cases hd : ns[i]? with
    | none => rw [lvlR_none (getElem?_map_subst_none hd), lvlR_none hd]
    | some d =>
      cases d with
      | pi => rw [lvlR_pi (getElem?_map_subst_pi hd), lvlR_pi hd]
      | gate a b =>
        rw [lvlR_gate hsub (getElem?_map_subst hd), lvlR_gate hb hd]
        have hsubi := hsub i (substSig n t a) (substSig n t b) (getElem?_map_subst hd)
        have hbi := hb i a b hd
        have hfan : ∀ s : Signal, rk s.node < rk i →
            (if s.node = n then rk t.node < rk i else True) →
            lvlR (ns.map (substDef n t)) rk (substSig n t s).node ≤
              lvlR ns rk s.node := by
          intro s hs hcond
          by_cases hc : s.node = n
          · rw [substSig_node_eq hc]
            rw [if_pos hc] at hcond
            have hrec := IH t.node (by omega)
            calc lvlR (ns.map (substDef n t)) rk t.node ≤ lvlR ns rk t.node := hrec
              _ ≤ lvlR ns rk n := hle
              _ = lvlR ns rk s.node := by rw [hc]
          · rw [substSig_node_ne hc]
            exact IH s.node (by omega)
        have h1 : (if a.node = n then rk t.node < rk i else True) := by
          by_cases hc : a.node = n
          · rw [if_pos hc]
            have := hsubi.2.2.1
            rw [substSig_node_eq hc] at this
            exact this
          · rw [if_neg hc]
            trivial
        have h2 : (if b.node = n then rk t.node < rk i else True) := by
          by_cases hc : b.node = n
          · rw [if_pos hc]
            have := hsubi.2.2.2
            rw [substSig_node_eq hc] at this
            exact this
          · rw [if_neg hc]
            trivial
        have := hfan a hbi.2.2.1 h1
        have := hfan b hbi.2.2.2 h2
        omega

theorem foldr_max_map_le {α : Type} (l : List α) (f h : α → Nat)
    (hp : ∀ x ∈ l, f x ≤ h x) :
    (l.map f).foldr max 0 ≤ (l.map h).foldr max 0 := by
  induction l with
  | nil => exact le_rfl
  | cons x l IH =>
    simp only [List.map_cons, List.foldr_cons]
    have h1 := hp x (List.mem_cons_self x l)
    have h2 := IH (fun y hy => hp y (List.mem_cons_of_mem x hy))
    omega

theorem commit_good {g : Aig} {n : Nat} (news : List NodeDef) (t : Signal)
    (hwf : Wf g)
    (hn : n < g.nodes.length)
    (hrkn : 0 < g.rk n)
    (hnews : NewsOk g.rk n g.nodes.length news)
    (ht : t.node < g.nodes.length + news.length)
    (htle : bumpRank g.rk n g.nodes.length t.node ≤ bumpRank g.rk n g.nodes.length n)
    (heq : ∀ env, Bool.xor t.inv
        (evalNodeR (g.nodes ++ news) (bumpRank g.rk n g.nodes.length) env t.node) =
      evalNodeR (g.nodes ++ news) (bumpRank g.rk n g.nodes.length) env n)
    (hlt : lvlR (g.nodes ++ news) (bumpRank g.rk n g.nodes.length) t.node <
      lvlR (g.nodes ++ news) (bumpRank g.rk n g.nodes.length) n) :
    Wf (commitAig g n news t) ∧
    (∀ env, evalOuts (commitAig g n news t) env = evalOuts g env) ∧
    outDepth (commitAig g n news t) ≤ outDepth g ∧
    lvl (commitAig g n news t) t.node < lvl g n := by
  have hbext : BoundedL (g.nodes ++ news) (bumpRank g.rk n g.nodes.length) :=
    boundedL_ext hwf.1 hrkn hnews
  have htlen : t.node < (g.nodes ++ news).length := by
    rw [List.length_append]
    exact ht
  have hbsub : BoundedL ((g.nodes ++ news).map (substDef n t))
      (bumpRank g.rk n g.nodes.length) :=
    boundedL_subst hbext htlen htle
  have hevalj : ∀ env j,
      evalNodeR ((g.nodes ++ news).map (substDef n t))
        (bumpRank g.rk n g.nodes.length) env j =
      evalNodeR (g.nodes ++ news) (bumpRank g.rk n g.nodes.length) env j := by
    intro env j
    exact evalNodeR_subst hbsub hbext env (heq env)
      (bumpRank g.rk n g.nodes.length j) j le_rfl
  have hlvlj : ∀ j,
      lvlR ((g.nodes ++ news).map (substDef n t))
        (bumpRank g.rk n g.nodes.length) j ≤
      lvlR (g.nodes ++ news) (bumpRank g.rk n g.nodes.length) j := by
    intro j
    exact lvlR_subst_le hbsub hbext (le_of_lt hlt)
      (bumpRank g.rk n g.nodes.length j) j le_rfl
  have hlvln : lvlR (g.nodes ++ news) (bumpRank g.rk n g.nodes.length) n =
      lvlR g.nodes g.rk n := lvlR_ext_old hwf.1 hn
  have hcnlen : (commitAig g n news t).nodes.length =
      g.nodes.length + news.length := by
    show ((g.nodes ++ news).map (substDef n t)).length = _
    rw [List.length_map, List.length_append]
  refine ⟨⟨hbsub, ?_⟩, ?_, ?_, ?_⟩
  · intro s hs
    rcases List.mem_map.mp hs with ⟨s0, hs0, rfl⟩
    rw [hcnlen]
    by_cases hc : s0.node = n
    · rw [substSig_node_eq hc]
      exact ht
    · rw [substSig_node_ne hc]
      have := hwf.2 s0 hs0
      omega
  · intro env
    show (g.outputs.map (substSig n t)).map
        (evalS (commitAig g n news t) env) = g.outputs.map (evalS g env)
    rw [List.map_map]
    apply List.map_congr_left
    intro s0 hs0
    show evalS (commitAig g n news t) env (substSig n t s0) = evalS g env s0
    unfold evalS evalNd
    by_cases hc : s0.node = n
    · rw [substSig_node_eq hc]
      show Bool.xor (Bool.xor s0.inv t.inv)
        (evalNodeR ((g.nodes ++ news).map (substDef n t))
          (bumpRank g.rk n g.nodes.length) env t.node) = _
      rw [hevalj env t.node, Bool.xor_assoc, heq env,
          evalNodeR_ext_old hwf.1 env hn, hc]
    · rw [substSig_node_ne hc]
      show Bool.xor s0.inv (evalNodeR ((g.nodes ++ news).map (substDef n t))
        (bumpRank g.rk n g.nodes.length) env s0.node) = _
      rw [hevalj env s0.node, evalNodeR_ext_old hwf.1 env (hwf.2 s0 hs0)]
  · show ((g.outputs.map (substSig n t)).map
        (fun s => lvl (commitAig g n news t) s.node)).foldr max 0 ≤ _
    rw [List.map_map]
    apply foldr_max_map_le
    intro s0 hs0
    show lvl (commitAig g n news t) (substSig n t s0).node ≤ lvl g s0.node
    unfold lvl
    by_cases hc : s0.node = n
    · rw [substSig_node_eq hc]
      show lvlR ((g.nodes ++ news).map (substDef n t))
        (bumpRank g.rk n g.nodes.length) t.node ≤ _
      calc lvlR ((g.nodes ++ news).map (substDef n t))
            (bumpRank g.rk n g.nodes.length) t.node ≤
          lvlR (g.nodes ++ news) (bumpRank g.rk n g.nodes.length) t.node := hlvlj t.node
        _ ≤ lvlR (g.nodes ++ news) (bumpRank g.rk n g.nodes.length) n := le_of_lt hlt
        _ = lvlR g.nodes g.rk n := hlvln
        _ = lvlR g.nodes g.rk s0.node := by rw [hc]
    · rw [substSig_node_ne hc]
      show lvlR ((g.nodes ++ news).map (substDef n t))
        (bumpRank g.rk n g.nodes.length) s0.node ≤ _
      calc lvlR ((g.nodes ++ news).map (substDef n t))
            (bumpRank g.rk n g.nodes.length) s0.node ≤
          lvlR (g.nodes ++ news) (bumpRank g.rk n g.nodes.length) s0.node := hlvlj s0.node
        _ = lvlR g.nodes g.rk s0.node := lvlR_ext_old hwf.1 (hwf.2 s0 hs0)
  · show lvlR ((g.nodes ++ news).map (substDef n t))
      (bumpRank g.rk n g.nodes.length) t.node < lvlR g.nodes g.rk n
    calc lvlR ((g.nodes ++ news).map (substDef n t))
          (bumpRank g.rk n g.nodes.length) t.node ≤
        lvlR (g.nodes ++ news) (bumpRank g.rk n g.nodes.length) t.node := hlvlj t.node
      _ < lvlR (g.nodes ++ news) (bumpRank g.rk n g.nodes.length) n := hlt
      _ = lvlR g.nodes g.rk n := hlvln

theorem getElem?_news_zero {ns : List NodeDef} {news : List NodeDef} {d : NodeDef}
    (h : news[0]? = some d) : (ns ++ news)[ns.length]? = some d := by
  rw [List.getElem?_append_right le_rfl, Nat.sub_self]
  exact h

theorem getElem?_news_at {ns : List NodeDef} {news : List NodeDef} {d : NodeDef} {k : Nat}
    (h : news[k]? = some d) : (ns ++ news)[ns.length + k]? = some d := by
  rw [List.getElem?_append_right (Nat.le_add_right _ _), Nat.add_sub_cancel_left]
  exact h

theorem assocMatch2_inv {g : Aig} {sl sr l r rl rr : Signal}
    (hm : assocMatch2 g sl sr = some (l, r, rl, rr)) :
    l = sl ∧ r = sr ∧ r.inv = false ∧
    ∃ c d, g.nodes[r.node]? = some (NodeDef.gate c d) ∧
      ((rl = c ∧ rr = d) ∨ (rl = d ∧ rr = c)) ∧
      lvl g rl.node < lvl g rr.node := by
  unfold assocMatch2 at hm
  by_cases hi : sr.inv = true
  · rw [if_pos hi] at hm
    cases hm
  · rw [if_neg hi] at hm
    cases hE : extract_and g sr.node with
    | none => rw [hE] at hm; cases hm
    | some p =>
      obtain ⟨c0, d0⟩ := p
      rw [hE] at hm
      dsimp only at hm
      have hget := extract_and_some.mp hE
      by_cases h1 : lvl g c0.node > lvl g d0.node
      · rw [if_pos h1] at hm
        simp only [Option.some.injEq, Prod.mk.injEq] at hm
        obtain ⟨e1, e2, e3, e4⟩ := hm
        refine ⟨e1.symm, e2.symm, by rw [← e2]; simpa using hi, c0, d0,
          by rw [← e2]; exact hget, Or.inr ⟨e3.symm, e4.symm⟩, ?_⟩
        rw [← e3, ← e4]
        exact h1
      · rw [if_neg h1] at hm
        by_cases h2 : lvl g c0.node = lvl g d0.node
        · rw [if_pos h2] at hm
          cases hm
        · rw [if_neg h2] at hm
          simp only [Option.some.injEq, Prod.mk.injEq] at hm
          obtain ⟨e1, e2, e3, e4⟩ := hm
          refine ⟨e1.symm, e2.symm, by rw [← e2]; simpa using hi, c0, d0,
            by rw [← e2]; exact hget, Or.inl ⟨e3.symm, e4.symm⟩, ?_⟩
          rw [← e3, ← e4]
          omega

theorem assocMatch_inv {g : Aig} {n : Nat} {l r rl rr : Signal}
    (hm : assocMatch g n = some (l, r, rl, rr)) :
    ∃ a b, g.nodes[n]? = some (NodeDef.gate a b) ∧
      ((l = a ∧ r = b) ∨ (l = b ∧ r = a)) ∧
      lvl g l.node + 1 < lvl g r.node ∧
      r.inv = false ∧
      ∃ c d, g.nodes[r.node]? = some (NodeDef.gate c d) ∧
        ((rl = c ∧ rr = d) ∨ (rl = d ∧ rr = c)) ∧
        lvl g rl.node < lvl g rr.node := by
  unfold assocMatch at hm
  cases hE : extract_and g n with
  | none => rw [hE] at hm; cases hm
  | some p =>
    obtain ⟨sl0, sr0⟩ := p
    rw [hE] at hm
    dsimp only at hm
    have hget := extract_and_some.mp hE
    by_cases h1 : lvl g sl0.node > lvl g sr0.node + 1
    · rw [if_pos h1] at hm
      obtain ⟨e1, e2, hrinv, c, d, hgr, hchild, hlev⟩ := assocMatch2_inv hm
      refine ⟨sl0, sr0, hget, Or.inr ⟨e1, e2⟩, ?_, hrinv, c, d, hgr, hchild, hlev⟩
      rw [e1, e2]
      omega
    · rw [if_neg h1] at hm
      by_cases h2 : lvl g sl0.node + 1 ≥ lvl g sr0.node
      · rw [if_pos h2] at hm
        cases hm
      · rw [if_neg h2] at hm
        obtain ⟨e1, e2, hrinv, c, d, hgr, hchild, hlev⟩ := assocMatch2_inv hm
        refine ⟨sl0, sr0, hget, Or.inl ⟨e1, e2⟩, ?_, hrinv, c, d, hgr, hchild, hlev⟩
        rw [e1, e2]
        omega

theorem assocApply_eq_commit (g : Aig) (n : Nat) (l rl rr : Signal) :
    assocApply g n l rl rr =
      commitAig g n
        [NodeDef.gate l rl, NodeDef.gate ⟨g.nodes.length, false⟩ rr]
        ⟨g.nodes.length + 1, false⟩ := by
  unfold assocApply create_and substituteNode commitAig
  simp only [List.append_assoc, List.length_append, List.length_cons, List.length_nil]
  rfl

theorem assoc_step {g : Aig} {n : Nat} {l r rl rr : Signal}
    (hwf : Wf g) (hm : assocMatch g n = some (l, r, rl, rr)) :
    GoodStep g (try_associativity g n).1 ∧
      lvl (try_associativity g n).1 (g.nodes.length + 1) < lvl g n := by
  obtain ⟨a, b, hget, hlr, hgap, hrinv, c, d, hgr, hcd, hlev⟩ := assocMatch_inv hm
  have htry : (try_associativity g n).1 = assocApply g n l rl rr := by
    unfold try_associativity
    rw [hm]
  have hn : n < g.nodes.length := getElem?_some_lt_length hget
  have hab := hwf.1 n a b hget
  have hl : l.node < g.nodes.length ∧ g.rk l.node < g.rk n := by
    rcases hlr with ⟨h1, h2⟩ | ⟨h1, h2⟩
    · rw [h1]; exact ⟨hab.1, hab.2.2.1⟩
    · rw [h1]; exact ⟨hab.2.1, hab.2.2.2⟩
  have hr : r.node < g.nodes.length ∧ g.rk r.node < g.rk n := by
    rcases hlr with ⟨h1, h2⟩ | ⟨h1, h2⟩
    · rw [h2]; exact ⟨hab.2.1, hab.2.2.2⟩
    · rw [h2]; exact ⟨hab.1, hab.2.2.1⟩
  have hcdn := hwf.1 r.node c d hgr
  have hrl : rl.node < g.nodes.length ∧ g.rk rl.node < g.rk n := by
    rcases hcd with ⟨h1, h2⟩ | ⟨h1, h2⟩
    · rw [h1]; exact ⟨hcdn.1, by omega⟩
    · rw [h1]; exact ⟨hcdn.2.1, by omega⟩
  have hrr : rr.node < g.nodes.length ∧ g.rk rr.node < g.rk n := by
    rcases hcd with ⟨h1, h2⟩ | ⟨h1, h2⟩
    · rw [h2]; exact ⟨hcdn.2.1, by omega⟩
    · rw [h2]; exact ⟨hcdn.1, by omega⟩
  have hrkn : 0 < g.rk n := by omega
  have hnews : NewsOk g.rk n g.nodes.length
      [NodeDef.gate l rl, NodeDef.gate ⟨g.nodes.length, false⟩ rr] := by
    intro k x y hk
    match k with
    | 0 =>
      simp only [List.getElem?_cons_zero, Option.some.injEq] at hk
      obtain ⟨hx, hy⟩ := NodeDef.gate.inj hk
      rw [← hx, ← hy]
      exact ⟨Or.inl ⟨hl.1, hl.2⟩, Or.inl ⟨hrl.1, hrl.2⟩⟩
    | 1 =>
      simp only [List.getElem?_cons_succ, List.getElem?_cons_zero, Option.some.injEq] at hk
      obtain ⟨hx, hy⟩ := NodeDef.gate.inj hk
      rw [← hx, ← hy]
      refine ⟨Or.inr ⟨le_rfl, ?_⟩, Or.inl ⟨hrr.1, hrr.2⟩⟩
      show g.nodes.length - g.nodes.length < 1
      omega
    | k + 2 =>
      simp only [List.getElem?_cons_succ, List.getElem?_nil] at hk
      cases hk
  have hext : BoundedL
      (g.nodes ++ [NodeDef.gate l rl, NodeDef.gate ⟨g.nodes.length, false⟩ rr])
      (bumpRank g.rk n g.nodes.length) :=
    boundedL_ext hwf.1 hrkn hnews
  have hd1 : (g.nodes ++ [NodeDef.gate l rl, NodeDef.gate ⟨g.nodes.length, false⟩ rr])[g.nodes.length]? =
      some (NodeDef.gate l rl) := getElem?_news_zero rfl
  have hd2 : (g.nodes ++ [NodeDef.gate l rl, NodeDef.gate ⟨g.nodes.length, false⟩ rr])[g.nodes.length + 1]? =
      some (NodeDef.gate ⟨g.nodes.length, false⟩ rr) := getElem?_news_at rfl
  have hgetE : (g.nodes ++ [NodeDef.gate l rl, NodeDef.gate ⟨g.nodes.length, false⟩ rr])[n]? =
      some (NodeDef.gate a b) := by
    rw [List.getElem?_append_left hn]
    exact hget
  have hgrE : (g.nodes ++ [NodeDef.gate l rl, NodeDef.gate ⟨g.nodes.length, false⟩ rr])[r.node]? =
      some (NodeDef.gate c d) := by
    rw [List.getElem?_append_left hr.1]
    exact hgr
  have hEold : ∀ (env : Nat → Bool) (j : Nat), j < g.nodes.length →
      evalNodeR (g.nodes ++ [NodeDef.gate l rl, NodeDef.gate ⟨g.nodes.length, false⟩ rr])
        (bumpRank g.rk n g.nodes.length) env j = evalNodeR g.nodes g.rk env j :=
    fun env j hj => evalNodeR_ext_old hwf.1 env hj
  have hLold : ∀ j, j < g.nodes.length →
      lvlR (g.nodes ++ [NodeDef.gate l rl, NodeDef.gate ⟨g.nodes.length, false⟩ rr])
        (bumpRank g.rk n g.nodes.length) j = lvlR g.nodes g.rk j :=
    fun j hj => lvlR_ext_old hwf.1 hj
  have heq : ∀ env, Bool.xor (false : Bool)
      (evalNodeR (g.nodes ++ [NodeDef.gate l rl, NodeDef.gate ⟨g.nodes.length, false⟩ rr])
        (bumpRank g.rk n g.nodes.length) env (g.nodes.length + 1)) =
      evalNodeR (g.nodes ++ [NodeDef.gate l rl, NodeDef.gate ⟨g.nodes.length, false⟩ rr])
        (bumpRank g.rk n g.nodes.length) env n := by
    intro env
    rw [evalNodeR_gate hext env hd2, evalNodeR_gate hext env hd1,
        evalNodeR_gate hext env hgetE]
    rw [hEold env l.node hl.1, hEold env rl.node hrl.1, hEold env rr.node hrr.1,
        hEold env a.node hab.1, hEold env b.node hab.2.1]
    have hrfac : Bool.xor r.inv
        (evalNodeR (g.nodes ++ [NodeDef.gate l rl, NodeDef.gate ⟨g.nodes.length, false⟩ rr])
          (bumpRank g.rk n g.nodes.length) env r.node) =
        ((Bool.xor rl.inv (evalNodeR g.nodes g.rk env rl.node)) &&
         (Bool.xor rr.inv (evalNodeR g.nodes g.rk env rr.node))) := by
      rw [evalNodeR_gate hext env hgrE, hrinv,
          hEold env c.node hcdn.1, hEold env d.node hcdn.2.1]
      rcases hcd with ⟨h1, h2⟩ | ⟨h1, h2⟩
      · rw [h1, h2, Bool.false_xor]
      · rw [h1, h2, Bool.false_xor, Bool.and_comm]
    have hnfac :
        ((Bool.xor a.inv (evalNodeR g.nodes g.rk env a.node)) &&
         (Bool.xor b.inv (evalNodeR g.nodes g.rk env b.node))) =
        ((Bool.xor l.inv (evalNodeR g.nodes g.rk env l.node)) &&
         (Bool.xor r.inv
           (evalNodeR (g.nodes ++ [NodeDef.gate l rl, NodeDef.gate ⟨g.nodes.length, false⟩ rr])
             (bumpRank g.rk n g.nodes.length) env r.node))) := by
      rw [hEold env r.node hr.1]
      rcases hlr with ⟨h1, h2⟩ | ⟨h1, h2⟩
      · rw [h1, h2]
      · rw [h1, h2, Bool.and_comm]
    rw [hnfac, hrfac, Bool.false_xor, Bool.false_xor, Bool.and_assoc]
  have hlt : lvlR (g.nodes ++ [NodeDef.gate l rl, NodeDef.gate ⟨g.nodes.length, false⟩ rr])
      (bumpRank g.rk n g.nodes.length) (g.nodes.length + 1) <
      lvlR (g.nodes ++ [NodeDef.gate l rl, NodeDef.gate ⟨g.nodes.length, false⟩ rr])
        (bumpRank g.rk n g.nodes.length) n := by
    rw [lvlR_gate hext hd2, lvlR_gate hext hd1, lvlR_gate hext hgetE]
    rw [hLold l.node hl.1, hLold rl.node hrl.1, hLold rr.node hrr.1,
        hLold a.node hab.1, hLold b.node hab.2.1]
    have hrlev : lvlR g.nodes g.rk r.node =
        max (lvlR g.nodes g.rk rl.node) (lvlR g.nodes g.rk rr.node) + 1 := by
      rw [lvlR_gate hwf.1 hgr]
      rcases hcd with ⟨h1, h2⟩ | ⟨h1, h2⟩
      · rw [h1, h2]
      · rw [h1, h2, Nat.max_comm]
    have hnlev : max (lvlR g.nodes g.rk a.node) (lvlR g.nodes g.rk b.node) =
        max (lvlR g.nodes g.rk l.node) (lvlR g.nodes g.rk r.node) := by
      rcases hlr with ⟨h1, h2⟩ | ⟨h1, h2⟩
      · rw [h1, h2]
      · rw [h1, h2, Nat.max_comm]
    rw [hnlev]
    unfold lvl at hgap hlev
    omega
  have ht : g.nodes.length + 1 <
      g.nodes.length + [NodeDef.gate l rl, NodeDef.gate ⟨g.nodes.length, false⟩ rr].length := by
    show g.nodes.length + 1 < g.nodes.length + 2
    omega
  have htle : bumpRank g.rk n g.nodes.length (g.nodes.length + 1) ≤
      bumpRank g.rk n g.nodes.length n := by
    unfold bumpRank
    rw [if_neg (by omega), if_pos hn]
    omega
  have hcg := commit_good [NodeDef.gate l rl, NodeDef.gate ⟨g.nodes.length, false⟩ rr]
    ⟨g.nodes.length + 1, false⟩ hwf hn hrkn hnews ht htle heq hlt
  rw [htry, assocApply_eq_commit]
  exact ⟨⟨hcg.1, hcg.2.1, hcg.2.2.1⟩, hcg.2.2.2⟩

theorem bxor_not_left (x y : Bool) : Bool.xor (!x) y = !(Bool.xor x y) := by
  cases x <;> cases y <;> rfl

theorem distNorm_inv {sll0 slr0 srl0 srr0 sll slr srl srr : Signal}
    (h : distNorm sll0 slr0 srl0 srr0 = some (sll, slr, srl, srr)) :
    ((sll = sll0 ∧ slr = slr0) ∨ (sll = slr0 ∧ slr = sll0)) ∧
    ((srl = srl0 ∧ srr = srr0) ∨ (srl = srr0 ∧ srr = srl0)) ∧
    slr.node = srl.node := by
  unfold distNorm at h
  by_cases h1 : sll0.node = srr0.node
  · rw [if_pos h1] at h
    simp only [Option.some.injEq, Prod.mk.injEq] at h
    obtain ⟨e1, e2, e3, e4⟩ := h
    exact ⟨Or.inr ⟨e1.symm, e2.symm⟩, Or.inr ⟨e3.symm, e4.symm⟩,
      by rw [← e2, ← e3]; exact h1⟩
  · rw [if_neg h1] at h
    by_cases h2 : sll0.node = srl0.node
    · rw [if_pos h2] at h
      simp only [Option.some.injEq, Prod.mk.injEq] at h
      obtain ⟨e1, e2, e3, e4⟩ := h
      exact ⟨Or.inr ⟨e1.symm, e2.symm⟩, Or.inl ⟨e3.symm, e4.symm⟩,
        by rw [← e2, ← e3]; exact h2⟩
    · rw [if_neg h2] at h
      by_cases h3 : slr0.node = srr0.node
      · rw [if_pos h3] at h
        simp only [Option.some.injEq, Prod.mk.injEq] at h
        obtain ⟨e1, e2, e3, e4⟩ := h
        exact ⟨Or.inl ⟨e1.symm, e2.symm⟩, Or.inr ⟨e3.symm, e4.symm⟩,
          by rw [← e2, ← e3]; exact h3⟩
      · rw [if_neg h3] at h
        by_cases h4 : slr0.node = srl0.node
        · rw [if_pos h4] at h
          simp only [Option.some.injEq, Prod.mk.injEq] at h
          obtain ⟨e1, e2, e3, e4⟩ := h
          exact ⟨Or.inl ⟨e1.symm, e2.symm⟩, Or.inl ⟨e3.symm, e4.symm⟩,
            by rw [← e2, ← e3]; exact h4⟩
        · rw [if_neg h4] at h
          cases h

theorem distMatch_inv {g : Aig} {n : Nat} {sll slr srl srr : Signal}
    (hm : distMatch g n = some (sll, slr, srl, srr)) :
    ∃ a b, g.nodes[n]? = some (NodeDef.gate a b) ∧ a.inv = true ∧ b.inv = true ∧
      ∃ p q u v, g.nodes[a.node]? = some (NodeDef.gate p q) ∧
        g.nodes[b.node]? = some (NodeDef.gate u v) ∧
        distNorm p q u v = some (sll, slr, srl, srr) ∧
        lvl g sll.node < lvl g slr.node ∧ lvl g srr.node < lvl g slr.node ∧
        slr.inv = srl.inv := by
  unfold distMatch at hm
  cases hE : extract_and g n with
  | none => rw [hE] at hm; cases hm
  | some pr =>
    obtain ⟨sl0, sr0⟩ := pr
    rw [hE] at hm
    dsimp only at hm
    have hget := extract_and_some.mp hE
    by_cases h1 : sl0.inv = false ∨ sr0.inv = false
    · rw [if_pos h1] at hm
      cases hm
    · rw [if_neg h1] at hm
      push_neg at h1
      have hainv : sl0.inv = true := by
        cases hb : sl0.inv
        · exact absurd hb h1.1
        · rfl
      have hbinv : sr0.inv = true := by
        cases hb : sr0.inv
        · exact absurd hb h1.2
        · rfl
      cases hEa : extract_and g sl0.node with
      | none => rw [hEa] at hm; cases hm
      | some pra =>
        obtain ⟨p, q⟩ := pra
        rw [hEa] at hm
        dsimp only at hm
        cases hEb : extract_and g sr0.node with
        | none => rw [hEb] at hm; cases hm
        | some prb =>
          obtain ⟨u, v⟩ := prb
          rw [hEb] at hm
          dsimp only at hm
          cases hN : distNorm p q u v with
          | none => rw [hN] at hm; cases hm
          | some tup =>
            obtain ⟨w1, w2, w3, w4⟩ := tup
            rw [hN] at hm
            dsimp only at hm
            by_cases h2 : lvl g w2.node ≤ lvl g w1.node ∨ lvl g w2.node ≤ lvl g w4.node
            · rw [if_pos h2] at hm
              cases hm
            · rw [if_neg h2] at hm
              push_neg at h2
              by_cases h3 : w2.inv ≠ w3.inv
              · rw [if_pos h3] at hm
                cases hm
              · rw [if_neg h3] at hm
                push_neg at h3
                simp only [Option.some.injEq, Prod.mk.injEq] at hm
                obtain ⟨e1, e2, e3, e4⟩ := hm
                refine ⟨sl0, sr0, hget, hainv, hbinv, p, q, u, v,
                  extract_and_some.mp hEa, extract_and_some.mp hEb, ?_, ?_, ?_, ?_⟩
                · rw [← e1, ← e2, ← e3, ← e4]
                  exact hN
                · rw [← e1, ← e2]
                  exact h2.1
                · rw [← e2, ← e4]
                  exact h2.2
                · rw [← e2, ← e3]
                  exact h3

theorem distApply_eq_commit (g : Aig) (n : Nat) (sll slr srr : Signal) :
    distApply g n sll slr srr =
      commitAig g n
        [NodeDef.gate ⟨sll.node, !sll.inv⟩ ⟨srr.node, !srr.inv⟩,
         NodeDef.gate slr ⟨g.nodes.length, true⟩]
        ⟨g.nodes.length + 1, true⟩ := by
  unfold distApply create_nand create_and create_not substituteNode commitAig
  simp only [List.append_assoc, List.length_append, List.length_cons, List.length_nil]
  rfl

theorem dist_step {g : Aig} {n : Nat} {sll slr srl srr : Signal}
    (hwf : Wf g) (hm : distMatch g n = some (sll, slr, srl, srr)) :
    GoodStep g (try_distributivity g n).1 ∧
      lvl (try_distributivity g n).1 (g.nodes.length + 1) < lvl g n := by
  obtain ⟨a, b, hget, hainv, hbinv, p, q, u, v, hgp, hgq, hN, hlev1, hlev2, hpol⟩ :=
    distMatch_inv hm
  obtain ⟨hperm1, hperm2, hnodes⟩ := distNorm_inv hN
  have htry : (try_distributivity g n).1 = distApply g n sll slr srr := by
    unfold try_distributivity
    rw [hm]
  have hn : n < g.nodes.length := getElem?_some_lt_length hget
  have hab := hwf.1 n a b hget
  have hpq := hwf.1 a.node p q hgp
  have huv := hwf.1 b.node u v hgq
  have hsll : sll.node < g.nodes.length ∧ g.rk sll.node < g.rk n := by
    rcases hperm1 with ⟨h1, h2⟩ | ⟨h1, h2⟩
    · rw [h1]; exact ⟨hpq.1, by omega⟩
    · rw [h1]; exact ⟨hpq.2.1, by omega⟩
  have hslr : slr.node < g.nodes.length ∧ g.rk slr.node < g.rk n := by
    rcases hperm1 with ⟨h1, h2⟩ | ⟨h1, h2⟩
    · rw [h2]; exact ⟨hpq.2.1, by omega⟩
    · rw [h2]; exact ⟨hpq.1, by omega⟩
  have hsrl : srl.node < g.nodes.length ∧ g.rk srl.node < g.rk n := by
    rcases hperm2 with ⟨h1, h2⟩ | ⟨h1, h2⟩
    · rw [h1]; exact ⟨huv.1, by omega⟩
    · rw [h1]; exact ⟨huv.2.1, by omega⟩
  have hsrr : srr.node < g.nodes.length ∧ g.rk srr.node < g.rk n := by
    rcases hperm2 with ⟨h1, h2⟩ | ⟨h1, h2⟩
    · rw [h2]; exact ⟨huv.2.1, by omega⟩
    · rw [h2]; exact ⟨huv.1, by omega⟩
  have hrkn : 0 < g.rk n := by omega
  have hnews : NewsOk g.rk n g.nodes.length
      [NodeDef.gate ⟨sll.node, !sll.inv⟩ ⟨srr.node, !srr.inv⟩,
       NodeDef.gate slr ⟨g.nodes.length, true⟩] := by
    intro k x y hk
    match k with
    | 0 =>
      simp only [List.getElem?_cons_zero, Option.some.injEq] at hk
      obtain ⟨hx, hy⟩ := NodeDef.gate.inj hk
      rw [← hx, ← hy]
      exact ⟨Or.inl ⟨hsll.1, hsll.2⟩, Or.inl ⟨hsrr.1, hsrr.2⟩⟩
    | 1 =>
      simp only [List.getElem?_cons_succ, List.getElem?_cons_zero, Option.some.injEq] at hk
      obtain ⟨hx, hy⟩ := NodeDef.gate.inj hk
      rw [← hx, ← hy]
      refine ⟨Or.inl ⟨hslr.1, hslr.2⟩, Or.inr ⟨le_rfl, ?_⟩⟩
      show g.nodes.length - g.nodes.length < 1
      omega
    | k + 2 =>
      simp only [List.getElem?_cons_succ, List.getElem?_nil] at hk
      cases hk
  have hext : BoundedL
      (g.nodes ++ [NodeDef.gate ⟨sll.node, !sll.inv⟩ ⟨srr.node, !srr.inv⟩,
        NodeDef.gate slr ⟨g.nodes.length, true⟩])
      (bumpRank g.rk n g.nodes.length) :=
    boundedL_ext hwf.1 hrkn hnews
  have hd1 : (g.nodes ++ [NodeDef.gate ⟨sll.node, !sll.inv⟩ ⟨srr.node, !srr.inv⟩,
      NodeDef.gate slr ⟨g.nodes.length, true⟩])[g.nodes.length]? =
      some (NodeDef.gate ⟨sll.node, !sll.inv⟩ ⟨srr.node, !srr.inv⟩) :=
    getElem?_news_zero rfl
  have hd2 : (g.nodes ++ [NodeDef.gate ⟨sll.node, !sll.inv⟩ ⟨srr.node, !srr.inv⟩,
      NodeDef.gate slr ⟨g.nodes.length, true⟩])[g.nodes.length + 1]? =
      some (NodeDef.gate slr ⟨g.nodes.length, true⟩) :=
    getElem?_news_at rfl
  have hgetE : (g.nodes ++ [NodeDef.gate ⟨sll.node, !sll.inv⟩ ⟨srr.node, !srr.inv⟩,
      NodeDef.gate slr ⟨g.nodes.length, true⟩])[n]? = some (NodeDef.gate a b) := by
    rw [List.getElem?_append_left hn]
    exact hget
  have hgaE : (g.nodes ++ [NodeDef.gate ⟨sll.node, !sll.inv⟩ ⟨srr.node, !srr.inv⟩,
      NodeDef.gate slr ⟨g.nodes.length, true⟩])[a.node]? = some (NodeDef.gate p q) := by
    rw [List.getElem?_append_left hab.1]
    exact hgp
  have hgbE : (g.nodes ++ [NodeDef.gate ⟨sll.node, !sll.inv⟩ ⟨srr.node, !srr.inv⟩,
      NodeDef.gate slr ⟨g.nodes.length, true⟩])[b.node]? = some (NodeDef.gate u v) := by
    rw [List.getElem?_append_left hab.2.1]
    exact hgq
  have hEold : ∀ (env : Nat → Bool) (j : Nat), j < g.nodes.length →
      evalNodeR (g.nodes ++ [NodeDef.gate ⟨sll.node, !sll.inv⟩ ⟨srr.node, !srr.inv⟩,
          NodeDef.gate slr ⟨g.nodes.length, true⟩])
        (bumpRank g.rk n g.nodes.length) env j = evalNodeR g.nodes g.rk env j :=
    fun env j hj => evalNodeR_ext_old hwf.1 env hj
  have hLold : ∀ j, j < g.nodes.length →
      lvlR (g.nodes ++ [NodeDef.gate ⟨sll.node, !sll.inv⟩ ⟨srr.node, !srr.inv⟩,
          NodeDef.gate slr ⟨g.nodes.length, true⟩])
        (bumpRank g.rk n g.nodes.length) j = lvlR g.nodes g.rk j :=
    fun j hj => lvlR_ext_old hwf.1 hj
  have hkey : ∀ X C Y : Bool,
      Bool.xor true (C && Bool.xor true ((!X) && (!Y))) =
        ((Bool.xor true (X && C)) && (Bool.xor true (C && Y))) := by decide
  have heq : ∀ env, Bool.xor (true : Bool)
      (evalNodeR (g.nodes ++ [NodeDef.gate ⟨sll.node, !sll.inv⟩ ⟨srr.node, !srr.inv⟩,
          NodeDef.gate slr ⟨g.nodes.length, true⟩])
        (bumpRank g.rk n g.nodes.length) env (g.nodes.length + 1)) =
      evalNodeR (g.nodes ++ [NodeDef.gate ⟨sll.node, !sll.inv⟩ ⟨srr.node, !srr.inv⟩,
          NodeDef.gate slr ⟨g.nodes.length, true⟩])
        (bumpRank g.rk n g.nodes.length) env n := by
    intro env
    rw [evalNodeR_gate hext env hd2, evalNodeR_gate hext env hd1,
        evalNodeR_gate hext env hgetE, evalNodeR_gate hext env hgaE,
        evalNodeR_gate hext env hgbE]
    rw [hEold env slr.node hslr.1, hEold env sll.node hsll.1, hEold env srr.node hsrr.1,
        hEold env p.node hpq.1, hEold env q.node hpq.2.1,
        hEold env u.node huv.1, hEold env v.node huv.2.1]
    rw [hainv, hbinv]
    have hA : ((Bool.xor p.inv (evalNodeR g.nodes g.rk env p.node)) &&
        (Bool.xor q.inv (evalNodeR g.nodes g.rk env q.node))) =
        ((Bool.xor sll.inv (evalNodeR g.nodes g.rk env sll.node)) &&
         (Bool.xor slr.inv (evalNodeR g.nodes g.rk env slr.node))) := by
      rcases hperm1 with ⟨h1, h2⟩ | ⟨h1, h2⟩
      · rw [h1, h2]
      · rw [h1, h2, Bool.and_comm]
    have hB : ((Bool.xor u.inv (evalNodeR g.nodes g.rk env u.node)) &&
        (Bool.xor v.inv (evalNodeR g.nodes g.rk env v.node))) =
        ((Bool.xor slr.inv (evalNodeR g.nodes g.rk env slr.node)) &&
         (Bool.xor srr.inv (evalNodeR g.nodes g.rk env srr.node))) := by
      have hsrlC : Bool.xor srl.inv (evalNodeR g.nodes g.rk env srl.node) =
          Bool.xor slr.inv (evalNodeR g.nodes g.rk env slr.node) := by
        rw [hpol, hnodes]
      rw [← hsrlC]
      rcases hperm2 with ⟨h1, h2⟩ | ⟨h1, h2⟩
      · rw [h1, h2]
      · rw [h1, h2, Bool.and_comm]
    rw [hA, hB]
    dsimp only
    simp only [bxor_not_left]
    exact hkey (Bool.xor sll.inv (evalNodeR g.nodes g.rk env sll.node))
      (Bool.xor slr.inv (evalNodeR g.nodes g.rk env slr.node))
      (Bool.xor srr.inv (evalNodeR g.nodes g.rk env srr.node))
  have hlt : lvlR (g.nodes ++ [NodeDef.gate ⟨sll.node, !sll.inv⟩ ⟨srr.node, !srr.inv⟩,
      NodeDef.gate slr ⟨g.nodes.length, true⟩])
      (bumpRank g.rk n g.nodes.length) (g.nodes.length + 1) <
      lvlR (g.nodes ++ [NodeDef.gate ⟨sll.node, !sll.inv⟩ ⟨srr.node, !srr.inv⟩,
        NodeDef.gate slr ⟨g.nodes.length, true⟩])
        (bumpRank g.rk n g.nodes.length) n := by
    rw [lvlR_gate hext hd2, lvlR_gate hext hd1, lvlR_gate hext hgetE]
    rw [hLold slr.node hslr.1, hLold sll.node hsll.1, hLold srr.node hsrr.1,
        hLold a.node hab.1, hLold b.node hab.2.1]
    have halev : lvlR g.nodes g.rk a.node =
        max (lvlR g.nodes g.rk sll.node) (lvlR g.nodes g.rk slr.node) + 1 := by
      rw [lvlR_gate hwf.1 hgp]
      rcases hperm1 with ⟨h1, h2⟩ | ⟨h1, h2⟩
      · rw [h1, h2]
      · rw [h1, h2, Nat.max_comm]
    rw [halev]
    unfold lvl at hlev1 hlev2
    omega
  have ht : g.nodes.length + 1 <
      g.nodes.length + [NodeDef.gate ⟨sll.node, !sll.inv⟩ ⟨srr.node, !srr.inv⟩,
        NodeDef.gate slr ⟨g.nodes.length, true⟩].length := by
    show g.nodes.length + 1 < g.nodes.length + 2
    omega
  have htle : bumpRank g.rk n g.nodes.length (g.nodes.length + 1) ≤
      bumpRank g.rk n g.nodes.length n := by
    unfold bumpRank
    rw [if_neg (by omega), if_pos hn]
    omega
  have hcg := commit_good
    [NodeDef.gate ⟨sll.node, !sll.inv⟩ ⟨srr.node, !srr.inv⟩,
      NodeDef.gate slr ⟨g.nodes.length, true⟩]
    ⟨g.nodes.length + 1, true⟩ hwf hn hrkn hnews ht htle heq hlt
  rw [htry, distApply_eq_commit]
  exact ⟨⟨hcg.1, hcg.2.1, hcg.2.2.1⟩, hcg.2.2.2⟩

theorem tl3_inv {g : Aig} {sl sr srl srr l r rl rr rrl rrr : Signal}
    (hm : tl3 g sl sr srl srr = some (l, r, rl, rr, rrl, rrr)) :
    l = sl ∧ r = sr ∧ rl = srl ∧ rr = srr ∧ rr.inv = true ∧
    ∃ e f2, g.nodes[rr.node]? = some (NodeDef.gate e f2) ∧
      ((rrl = e ∧ rrr = f2) ∨ (rrl = f2 ∧ rrr = e)) ∧
      lvl g rrl.node < lvl g rrr.node := by
  unfold tl3 at hm
  by_cases hi : srr.inv = false
  · rw [if_pos hi] at hm
    cases hm
  · rw [if_neg hi] at hm
    cases hE : extract_and g srr.node with
    | none => rw [hE] at hm; cases hm
    | some pr =>
      obtain ⟨e0, f0⟩ := pr
      rw [hE] at hm
      dsimp only at hm
      have hget := extract_and_some.mp hE
      have hinv : srr.inv = true := by
        cases hb : srr.inv
        · exact absurd hb hi
        · rfl
      by_cases h1 : lvl g e0.node > lvl g f0.node
      · rw [if_pos h1] at hm
        simp only [Option.some.injEq, Prod.mk.injEq] at hm
        obtain ⟨e1, e2, e3, e4, e5, e6⟩ := hm
        refine ⟨e1.symm, e2.symm, e3.symm, e4.symm, by rw [← e4]; exact hinv, e0, f0,
          by rw [← e4]; exact hget, Or.inr ⟨e5.symm, e6.symm⟩, ?_⟩
        rw [← e5, ← e6]
        exact h1
      · rw [if_neg h1] at hm
        by_cases h2 : lvl g e0.node = lvl g f0.node
        · rw [if_pos h2] at hm
          cases hm
        · rw [if_neg h2] at hm
          simp only [Option.some.injEq, Prod.mk.injEq] at hm
          obtain ⟨e1, e2, e3, e4, e5, e6⟩ := hm
          refine ⟨e1.symm, e2.symm, e3.symm, e4.symm, by rw [← e4]; exact hinv, e0, f0,
            by rw [← e4]; exact hget, Or.inl ⟨e5.symm, e6.symm⟩, ?_⟩
          rw [← e5, ← e6]
          omega

theorem tl2_inv {g : Aig} {sl sr l r rl rr rrl rrr : Signal}
    (hm : tl2 g sl sr = some (l, r, rl, rr, rrl, rrr)) :
    l = sl ∧ r = sr ∧ r.inv = true ∧
    ∃ c d, g.nodes[r.node]? = some (NodeDef.gate c d) ∧
      ((rl = c ∧ rr = d) ∨ (rl = d ∧ rr = c)) ∧
      lvl g rl.node + 1 < lvl g rr.node ∧ rr.inv = true ∧
      ∃ e f2, g.nodes[rr.node]? = some (NodeDef.gate e f2) ∧
        ((rrl = e ∧ rrr = f2) ∨ (rrl = f2 ∧ rrr = e)) ∧
        lvl g rrl.node < lvl g rrr.node := by
  unfold tl2 at hm
  by_cases hi : sr.inv = false
  · rw [if_pos hi] at hm
    cases hm
  · rw [if_neg hi] at hm
    cases hE : extract_and g sr.node with
    | none => rw [hE] at hm; cases hm
    | some pr =>
      obtain ⟨c0, d0⟩ := pr
      rw [hE] at hm
      dsimp only at hm
      have hget := extract_and_some.mp hE
      have hinv : sr.inv = true := by
        cases hb : sr.inv
        · exact absurd hb hi
        · rfl
      by_cases h1 : lvl g c0.node > lvl g d0.node + 1
      · rw [if_pos h1] at hm
        obtain ⟨e1, e2, e3, e4, hrrinv, e, f2, hgrr, hperm3, hlev3⟩ := tl3_inv hm
        refine ⟨e1, e2, by rw [e2]; exact hinv, c0, d0,
          by rw [e2]; exact hget, Or.inr ⟨e3, e4⟩, ?_, hrrinv, e, f2, hgrr, hperm3, hlev3⟩
        rw [e3, e4]
        omega
      · rw [if_neg h1] at hm
        by_cases h2 : lvl g c0.node + 1 ≥ lvl g d0.node
        · rw [if_pos h2] at hm
          cases hm
        · rw [if_neg h2] at hm
          obtain ⟨e1, e2, e3, e4, hrrinv, e, f2, hgrr, hperm3, hlev3⟩ := tl3_inv hm
          refine ⟨e1, e2, by rw [e2]; exact hinv, c0, d0,
            by rw [e2]; exact hget, Or.inl ⟨e3, e4⟩, ?_, hrrinv, e, f2, hgrr, hperm3, hlev3⟩
          rw [e3, e4]
          omega

theorem tlMatch_inv {g : Aig} {n : Nat} {l r rl rr rrl rrr : Signal}
    (hm : tlMatch g n = some (l, r, rl, rr, rrl, rrr)) :
    ∃ a b, g.nodes[n]? = some (NodeDef.gate a b) ∧
      ((l = a ∧ r = b) ∨ (l = b ∧ r = a)) ∧
      lvl g l.node + 2 < lvl g r.node ∧ r.inv = true ∧
      ∃ c d, g.nodes[r.node]? = some (NodeDef.gate c d) ∧
        ((rl = c ∧ rr = d) ∨ (rl = d ∧ rr = c)) ∧
        lvl g rl.node + 1 < lvl g rr.node ∧ rr.inv = true ∧
        ∃ e f2, g.nodes[rr.node]? = some (NodeDef.gate e f2) ∧
          ((rrl = e ∧ rrr = f2) ∨ (rrl = f2 ∧ rrr = e)) ∧
          lvl g rrl.node < lvl g rrr.node := by
  unfold tlMatch at hm
  cases hE : extract_and g n with
  | none => rw [hE] at hm; cases hm
  | some pr =>
    obtain ⟨sl0, sr0⟩ := pr
    rw [hE] at hm
    dsimp only at hm
    have hget := extract_and_some.mp hE
    by_cases h1 : lvl g sl0.node > lvl g sr0.node + 2
    · rw [if_pos h1] at hm
      obtain ⟨e1, e2, hrest⟩ := tl2_inv hm
      refine ⟨sl0, sr0, hget, Or.inr ⟨e1, e2⟩, ?_, ?_⟩
      · rw [e1, e2]
        omega
      · exact hrest
    · rw [if_neg h1] at hm
      by_cases h2 : lvl g sl0.node + 2 ≥ lvl g sr0.node
      · rw [if_pos h2] at hm
        cases hm
      · rw [if_neg h2] at hm
        obtain ⟨e1, e2, hrest⟩ := tl2_inv hm
        refine ⟨sl0, sr0, hget, Or.inl ⟨e1, e2⟩, ?_, ?_⟩
        · rw [e1, e2]
          omega
        · exact hrest

theorem tlApply_eq_commit (g : Aig) (n : Nat) (sl srl srrl srrr : Signal) :
    tlApply g n sl srl srrl srrr =
      commitAig g n
        [NodeDef.gate sl ⟨srl.node, !srl.inv⟩,
         NodeDef.gate sl srrl,
         NodeDef.gate ⟨g.nodes.length + 1, false⟩ srrr,
         NodeDef.gate ⟨g.nodes.length, true⟩ ⟨g.nodes.length + 2, true⟩]
        ⟨g.nodes.length + 3, true⟩ := by
  unfold tlApply create_nand create_and create_not substituteNode commitAig
  simp only [List.append_assoc, List.length_append, List.length_cons, List.length_nil]
  rfl

theorem tl_step {g : Aig} {n : Nat} {l r rl rr rrl rrr : Signal}
    (hwf : Wf g) (hm : tlMatch g n = some (l, r, rl, rr, rrl, rrr)) :
    GoodStep g (try_3l_distributivity g n).1 ∧
      lvl (try_3l_distributivity g n).1 (g.nodes.length + 3) < lvl g n := by
  obtain ⟨a, b, hget, hlr, hgap, hrinv, c, d, hgr, hperm2, hgap2, hrrinv,
    e, f2, hgrr, hperm3, hlev3⟩ := tlMatch_inv hm
  have htry : (try_3l_distributivity g n).1 = tlApply g n l rl rrl rrr := by
    unfold try_3l_distributivity
    rw [hm]
  have hn : n < g.nodes.length := getElem?_some_lt_length hget
  have hab := hwf.1 n a b hget
  have hl : l.node < g.nodes.length ∧ g.rk l.node < g.rk n := by
    rcases hlr with ⟨h1, h2⟩ | ⟨h1, h2⟩
    · rw [h1]; exact ⟨hab.1, hab.2.2.1⟩
    · rw [h1]; exact ⟨hab.2.1, hab.2.2.2⟩
  have hr : r.node < g.nodes.length ∧ g.rk r.node < g.rk n := by
    rcases hlr with ⟨h1, h2⟩ | ⟨h1, h2⟩
    · rw [h2]; exact ⟨hab.2.1, hab.2.2.2⟩
    · rw [h2]; exact ⟨hab.1, hab.2.2.1⟩
  have hcd := hwf.1 r.node c d hgr
  have hrl : rl.node < g.nodes.length ∧ g.rk rl.node < g.rk n := by
    rcases hperm2 with ⟨h1, h2⟩ | ⟨h1, h2⟩
    · rw [h1]; exact ⟨hcd.1, by omega⟩
    · rw [h1]; exact ⟨hcd.2.1, by omega⟩
  have hrr : rr.node < g.nodes.length ∧ g.rk rr.node < g.rk n := by
    rcases hperm2 with ⟨h1, h2⟩ | ⟨h1, h2⟩
    · rw [h2]; exact ⟨hcd.2.1, by omega⟩
    · rw [h2]; exact ⟨hcd.1, by omega⟩
  have hef := hwf.1 rr.node e f2 hgrr
  have hrrl : rrl.node < g.nodes.length ∧ g.rk rrl.node < g.rk n := by
    rcases hperm3 with ⟨h1, h2⟩ | ⟨h1, h2⟩
    · rw [h1]; exact ⟨hef.1, by omega⟩
    · rw [h1]; exact ⟨hef.2.1, by omega⟩
  have hrrr : rrr.node < g.nodes.length ∧ g.rk rrr.node < g.rk n := by
    rcases hperm3 with ⟨h1, h2⟩ | ⟨h1, h2⟩
    · rw [h2]; exact ⟨hef.2.1, by omega⟩
    · rw [h2]; exact ⟨hef.1, by omega⟩
  have hrkn : 0 < g.rk n := by omega
  have hnews : NewsOk g.rk n g.nodes.length
      [NodeDef.gate l ⟨rl.node, !rl.inv⟩,
       NodeDef.gate l rrl,
       NodeDef.gate ⟨g.nodes.length + 1, false⟩ rrr,
       NodeDef.gate ⟨g.nodes.length, true⟩ ⟨g.nodes.length + 2, true⟩] := by
    intro k x y hk
    match k with
    | 0 =>
      simp only [List.getElem?_cons_zero, Option.some.injEq] at hk
      obtain ⟨hx, hy⟩ := NodeDef.gate.inj hk
      rw [← hx, ← hy]
      exact ⟨Or.inl ⟨hl.1, hl.2⟩, Or.inl ⟨hrl.1, hrl.2⟩⟩
    | 1 =>
      simp only [List.getElem?_cons_succ, List.getElem?_cons_zero, Option.some.injEq] at hk
      obtain ⟨hx, hy⟩ := NodeDef.gate.inj hk
      rw [← hx, ← hy]
      exact ⟨Or.inl ⟨hl.1, hl.2⟩, Or.inl ⟨hrrl.1, hrrl.2⟩⟩
    | 2 =>
      simp only [List.getElem?_cons_succ, List.getElem?_cons_zero, Option.some.injEq] at hk
      obtain ⟨hx, hy⟩ := NodeDef.gate.inj hk
      rw [← hx, ← hy]
      refine ⟨Or.inr ⟨?_, ?_⟩, Or.inl ⟨hrrr.1, hrrr.2⟩⟩
      · show g.nodes.length ≤ g.nodes.length + 1
        omega
      · show g.nodes.length + 1 - g.nodes.length < 2
        omega
    | 3 =>
      simp only [List.getElem?_cons_succ, List.getElem?_cons_zero, Option.some.injEq] at hk
      obtain ⟨hx, hy⟩ := NodeDef.gate.inj hk
      rw [← hx, ← hy]
      refine ⟨Or.inr ⟨le_rfl, ?_⟩, Or.inr ⟨?_, ?_⟩⟩
      · show g.nodes.length - g.nodes.length < 3
        omega
      · show g.nodes.length ≤ g.nodes.length + 2
        omega
      · show g.nodes.length + 2 - g.nodes.length < 3
        omega
    | k + 4 =>
      simp only [List.getElem?_cons_succ, List.getElem?_nil] at hk
      cases hk
  have hext : BoundedL
      (g.nodes ++ [NodeDef.gate l ⟨rl.node, !rl.inv⟩, NodeDef.gate l rrl,
        NodeDef.gate ⟨g.nodes.length + 1, false⟩ rrr,
        NodeDef.gate ⟨g.nodes.length, true⟩ ⟨g.nodes.length + 2, true⟩])
      (bumpRank g.rk n g.nodes.length) :=
    boundedL_ext hwf.1 hrkn hnews
  have hd1 : (g.nodes ++ [NodeDef.gate l ⟨rl.node, !rl.inv⟩, NodeDef.gate l rrl,
      NodeDef.gate ⟨g.nodes.length + 1, false⟩ rrr,
      NodeDef.gate ⟨g.nodes.length, true⟩ ⟨g.nodes.length + 2, true⟩])[g.nodes.length]? =
      some (NodeDef.gate l ⟨rl.node, !rl.inv⟩) := getElem?_news_zero rfl
  have hd2 : (g.nodes ++ [NodeDef.gate l ⟨rl.node, !rl.inv⟩, NodeDef.gate l rrl,
      NodeDef.gate ⟨g.nodes.length + 1, false⟩ rrr,
      NodeDef.gate ⟨g.nodes.length, true⟩ ⟨g.nodes.length + 2, true⟩])[g.nodes.length + 1]? =
      some (NodeDef.gate l rrl) := getElem?_news_at rfl
  have hd3 : (g.nodes ++ [NodeDef.gate l ⟨rl.node, !rl.inv⟩, NodeDef.gate l rrl,
      NodeDef.gate ⟨g.nodes.length + 1, false⟩ rrr,
      NodeDef.gate ⟨g.nodes.length, true⟩ ⟨g.nodes.length + 2, true⟩])[g.nodes.length + 2]? =
      some (NodeDef.gate ⟨g.nodes.length + 1, false⟩ rrr) := getElem?_news_at rfl
  have hd4 : (g.nodes ++ [NodeDef.gate l ⟨rl.node, !rl.inv⟩, NodeDef.gate l rrl,
      NodeDef.gate ⟨g.nodes.length + 1, false⟩ rrr,
      NodeDef.gate ⟨g.nodes.length, true⟩ ⟨g.nodes.length + 2, true⟩])[g.nodes.length + 3]? =
      some (NodeDef.gate ⟨g.nodes.length, true⟩ ⟨g.nodes.length + 2, true⟩) :=
    getElem?_news_at rfl
  have hgetE : (g.nodes ++ [NodeDef.gate l ⟨rl.node, !rl.inv⟩, NodeDef.gate l rrl,
      NodeDef.gate ⟨g.nodes.length + 1, false⟩ rrr,
      NodeDef.gate ⟨g.nodes.length, true⟩ ⟨g.nodes.length + 2, true⟩])[n]? =
      some (NodeDef.gate a b) := by
    rw [List.getElem?_append_left hn]
    exact hget
  have hEold : ∀ (env : Nat → Bool) (j : Nat), j < g.nodes.length →
      evalNodeR (g.nodes ++ [NodeDef.gate l ⟨rl.node, !rl.inv⟩, NodeDef.gate l rrl,
          NodeDef.gate ⟨g.nodes.length + 1, false⟩ rrr,
          NodeDef.gate ⟨g.nodes.length, true⟩ ⟨g.nodes.length + 2, true⟩])
        (bumpRank g.rk n g.nodes.length) env j = evalNodeR g.nodes g.rk env j :=
    fun env j hj => evalNodeR_ext_old hwf.1 env hj
  have hLold : ∀ j, j < g.nodes.length →
      lvlR (g.nodes ++ [NodeDef.gate l ⟨rl.node, !rl.inv⟩, NodeDef.gate l rrl,
          NodeDef.gate ⟨g.nodes.length + 1, false⟩ rrr,
          NodeDef.gate ⟨g.nodes.length, true⟩ ⟨g.nodes.length + 2, true⟩])
        (bumpRank g.rk n g.nodes.length) j = lvlR g.nodes g.rk j :=
    fun j hj => lvlR_ext_old hwf.1 hj
  have hkey3 : ∀ L P Q R : Bool,
      Bool.xor true ((Bool.xor true (L && !P)) &&
        (Bool.xor true ((Bool.xor false (L && Q)) && R))) =
      (L && (Bool.xor true (P && (Bool.xor true (Q && R))))) := by decide
  have heq : ∀ env, Bool.xor (true : Bool)
      (evalNodeR (g.nodes ++ [NodeDef.gate l ⟨rl.node, !rl.inv⟩, NodeDef.gate l rrl,
          NodeDef.gate ⟨g.nodes.length + 1, false⟩ rrr,
          NodeDef.gate ⟨g.nodes.length, true⟩ ⟨g.nodes.length + 2, true⟩])
        (bumpRank g.rk n g.nodes.length) env (g.nodes.length + 3)) =
      evalNodeR (g.nodes ++ [NodeDef.gate l ⟨rl.node, !rl.inv⟩, NodeDef.gate l rrl,
          NodeDef.gate ⟨g.nodes.length + 1, false⟩ rrr,
          NodeDef.gate ⟨g.nodes.length, true⟩ ⟨g.nodes.length + 2, true⟩])
        (bumpRank g.rk n g.nodes.length) env n := by
    intro env
    rw [evalNodeR_gate hext env hd4, evalNodeR_gate hext env hd3,
        evalNodeR_gate hext env hd2, evalNodeR_gate hext env hd1,
        evalNodeR_gate hext env hgetE]
    rw [hEold env l.node hl.1, hEold env rl.node hrl.1, hEold env rrl.node hrrl.1,
        hEold env rrr.node hrrr.1, hEold env a.node hab.1, hEold env b.node hab.2.1]
    have hnfac :
        ((Bool.xor a.inv (evalNodeR g.nodes g.rk env a.node)) &&
         (Bool.xor b.inv (evalNodeR g.nodes g.rk env b.node))) =
        ((Bool.xor l.inv (evalNodeR g.nodes g.rk env l.node)) &&
         (Bool.xor r.inv (evalNodeR g.nodes g.rk env r.node))) := by
      rcases hlr with ⟨h1, h2⟩ | ⟨h1, h2⟩
      · rw [h1, h2]
      · rw [h1, h2, Bool.and_comm]
    have hrrfac : Bool.xor rr.inv (evalNodeR g.nodes g.rk env rr.node) =
        Bool.xor true ((Bool.xor rrl.inv (evalNodeR g.nodes g.rk env rrl.node)) &&
          (Bool.xor rrr.inv (evalNodeR g.nodes g.rk env rrr.node))) := by
      rw [evalNodeR_gate hwf.1 env hgrr, hrrinv]
      rcases hperm3 with ⟨h1, h2⟩ | ⟨h1, h2⟩
      · rw [h1, h2]
      · rw [h1, h2, Bool.and_comm]
    have hrfac : Bool.xor r.inv (evalNodeR g.nodes g.rk env r.node) =
        Bool.xor true ((Bool.xor rl.inv (evalNodeR g.nodes g.rk env rl.node)) &&
          (Bool.xor rr.inv (evalNodeR g.nodes g.rk env rr.node))) := by
      rw [evalNodeR_gate hwf.1 env hgr, hrinv]
      rcases hperm2 with ⟨h1, h2⟩ | ⟨h1, h2⟩
      · rw [h1, h2]
      · rw [h1, h2, Bool.and_comm]
    rw [hnfac, hrfac, hrrfac]
    dsimp only
    simp only [bxor_not_left]
    exact hkey3 (Bool.xor l.inv (evalNodeR g.nodes g.rk env l.node))
      (Bool.xor rl.inv (evalNodeR g.nodes g.rk env rl.node))
      (Bool.xor rrl.inv (evalNodeR g.nodes g.rk env rrl.node))
      (Bool.xor rrr.inv (evalNodeR g.nodes g.rk env rrr.node))
  have hlt : lvlR (g.nodes ++ [NodeDef.gate l ⟨rl.node, !rl.inv⟩, NodeDef.gate l rrl,
      NodeDef.gate ⟨g.nodes.length + 1, false⟩ rrr,
      NodeDef.gate ⟨g.nodes.length, true⟩ ⟨g.nodes.length + 2, true⟩])
      (bumpRank g.rk n g.nodes.length) (g.nodes.length + 3) <
      lvlR (g.nodes ++ [NodeDef.gate l ⟨rl.node, !rl.inv⟩, NodeDef.gate l rrl,
        NodeDef.gate ⟨g.nodes.length + 1, false⟩ rrr,
        NodeDef.gate ⟨g.nodes.length, true⟩ ⟨g.nodes.length + 2, true⟩])
        (bumpRank g.rk n g.nodes.length) n := by
    rw [lvlR_gate hext hd4, lvlR_gate hext hd3, lvlR_gate hext hd2,
        lvlR_gate hext hd1, lvlR_gate hext hgetE]
    rw [hLold l.node hl.1, hLold rl.node hrl.1, hLold rrl.node hrrl.1,
        hLold rrr.node hrrr.1, hLold a.node hab.1, hLold b.node hab.2.1]
    have hnlev : max (lvlR g.nodes g.rk a.node) (lvlR g.nodes g.rk b.node) =
        max (lvlR g.nodes g.rk l.node) (lvlR g.nodes g.rk r.node) := by
      rcases hlr with ⟨h1, h2⟩ | ⟨h1, h2⟩
      · rw [h1, h2]
      · rw [h1, h2, Nat.max_comm]
    have hrlev : lvlR g.nodes g.rk r.node =
        max (lvlR g.nodes g.rk rl.node) (lvlR g.nodes g.rk rr.node) + 1 := by
      rw [lvlR_gate hwf.1 hgr]
      rcases hperm2 with ⟨h1, h2⟩ | ⟨h1, h2⟩
      · rw [h1, h2]
      · rw [h1, h2, Nat.max_comm]
    have hrrlev : lvlR g.nodes g.rk rr.node =
        max (lvlR g.nodes g.rk rrl.node) (lvlR g.nodes g.rk rrr.node) + 1 := by
      rw [lvlR_gate hwf.1 hgrr]
      rcases hperm3 with ⟨h1, h2⟩ | ⟨h1, h2⟩
      · rw [h1, h2]
      · rw [h1, h2, Nat.max_comm]
    rw [hnlev]
    unfold lvl at hgap hgap2 hlev3
    omega
  have ht : g.nodes.length + 3 <
      g.nodes.length + [NodeDef.gate l ⟨rl.node, !rl.inv⟩, NodeDef.gate l rrl,
        NodeDef.gate ⟨g.nodes.length + 1, false⟩ rrr,
        NodeDef.gate ⟨g.nodes.length, true⟩ ⟨g.nodes.length + 2, true⟩].length := by
    show g.nodes.length + 3 < g.nodes.length + 4
    omega
  have htle : bumpRank g.rk n g.nodes.length (g.nodes.length + 3) ≤
      bumpRank g.rk n g.nodes.length n := by
    unfold bumpRank
    rw [if_neg (by omega), if_pos hn]
    omega
  have hcg := commit_good
    [NodeDef.gate l ⟨rl.node, !rl.inv⟩, NodeDef.gate l rrl,
      NodeDef.gate ⟨g.nodes.length + 1, false⟩ rrr,
      NodeDef.gate ⟨g.nodes.length, true⟩ ⟨g.nodes.length + 2, true⟩]
    ⟨g.nodes.length + 3, true⟩ hwf hn hrkn hnews ht htle heq hlt
  rw [htry, tlApply_eq_commit]
  exact ⟨⟨hcg.1, hcg.2.1, hcg.2.2.1⟩, hcg.2.2.2⟩

theorem goodStep_refl {g : Aig} (hwf : Wf g) : GoodStep g g :=
  ⟨hwf, fun _ => rfl, le_rfl⟩

theorem goodStep_trans {g g2 g3 : Aig} (h1 : GoodStep g g2) (h2 : GoodStep g2 g3) :
    GoodStep g g3 :=
  ⟨h2.1, fun env => (h2.2.1 env).trans (h1.2.1 env), le_trans h2.2.2 h1.2.2⟩

theorem try_associativity_no_fire {g : Aig} {n : Nat}
    (h : (try_associativity g n).2 = false) : (try_associativity g n).1 = g := by
  unfold try_associativity at h ⊢
  cases hm : assocMatch g n with
  | none => rfl
  | some tup =>
    obtain ⟨x1, x2, x3, x4⟩ := tup
    rw [hm] at h
    cases h

theorem try_distributivity_no_fire {g : Aig} {n : Nat}
    (h : (try_distributivity g n).2 = false) : (try_distributivity g n).1 = g := by
  unfold try_distributivity at h ⊢
  cases hm : distMatch g n with
  | none => rfl
  | some tup =>
    obtain ⟨x1, x2, x3, x4⟩ := tup
    rw [hm] at h
    cases h

theorem try_3l_distributivity_no_fire {g : Aig} {n : Nat}
    (h : (try_3l_distributivity g n).2 = false) : (try_3l_distributivity g n).1 = g := by
  unfold try_3l_distributivity at h ⊢
  cases hm : tlMatch g n with
  | none => rfl
  | some tup =>
    obtain ⟨x1, x2, x3, x4, x5, x6⟩ := tup
    rw [hm] at h
    cases h

theorem try_associativity_fire {g : Aig} {n : Nat}
    (h : (try_associativity g n).2 = true) :
    ∃ l r rl rr, assocMatch g n = some (l, r, rl, rr) := by
  unfold try_associativity at h
  cases hm : assocMatch g n with
  | none => rw [hm] at h; cases h
  | some tup =>
    obtain ⟨x1, x2, x3, x4⟩ := tup
    exact ⟨x1, x2, x3, x4, rfl⟩

theorem try_distributivity_fire {g : Aig} {n : Nat}
    (h : (try_distributivity g n).2 = true) :
    ∃ sll slr srl srr, distMatch g n = some (sll, slr, srl, srr) := by
  unfold try_distributivity at h
  cases hm : distMatch g n with
  | none => rw [hm] at h; cases h
  | some tup =>
    obtain ⟨x1, x2, x3, x4⟩ := tup
    exact ⟨x1, x2, x3, x4, rfl⟩

theorem try_3l_distributivity_fire {g : Aig} {n : Nat}
    (h : (try_3l_distributivity g n).2 = true) :
    ∃ l r rl rr rrl rrr, tlMatch g n = some (l, r, rl, rr, rrl, rrr) := by
  unfold try_3l_distributivity at h
  cases hm : tlMatch g n with
  | none => rw [hm] at h; cases h
  | some tup =>
    obtain ⟨x1, x2, x3, x4, x5, x6⟩ := tup
    exact ⟨x1, x2, x3, x4, x5, x6, rfl⟩

theorem rules_evolve (g : Aig) (i : Nat) (hwf : Wf g) :
    GoodStep g (try_algebraic_rules g i).1 := by
  unfold try_algebraic_rules
  by_cases h1 : (try_associativity g i).2 = true
  · rw [if_pos h1]
    obtain ⟨l, r, rl, rr, hm⟩ := try_associativity_fire h1
    exact (assoc_step hwf hm).1
  · rw [if_neg h1]
    by_cases h2 : (try_distributivity g i).2 = true
    · rw [if_pos h2]
      obtain ⟨sll, slr, srl, srr, hm⟩ := try_distributivity_fire h2
      exact (dist_step hwf hm).1
    · rw [if_neg h2]
      by_cases h3 : (try_3l_distributivity g i).2 = true
      · obtain ⟨l, r, rl, rr, rrl, rrr, hm⟩ := try_3l_distributivity_fire h3
        exact (tl_step hwf hm).1
      · rw [try_3l_distributivity_no_fire (Bool.not_eq_true _ |>.mp h3)]
        exact goodStep_refl hwf

theorem try_algebraic_rules_no_fire {g : Aig} {n : Nat}
    (h : (try_algebraic_rules g n).2 = false) : (try_algebraic_rules g n).1 = g := by
  unfold try_algebraic_rules at h ⊢
  by_cases h1 : (try_associativity g n).2 = true
  · rw [if_pos h1] at h ⊢
    rw [h1] at h
    cases h
  · rw [if_neg h1] at h ⊢
    by_cases h2 : (try_distributivity g n).2 = true
    · rw [if_pos h2] at h ⊢
      rw [h2] at h
      cases h
    · rw [if_neg h2] at h ⊢
      exact try_3l_distributivity_no_fire h

theorem scanGo_evolve : ∀ (L : List Nat) (g : Aig) (ch : Bool), Wf g →
    GoodStep g (scanGo L g ch).1 := by
  intro L
  induction L with
  | nil => intro g ch hwf; exact goodStep_refl hwf
  | cons i rest IH =>
    intro g ch hwf
    unfold scanGo
    by_cases ha : aliveGate g i = true
    · rw [if_pos ha]
      have h1 := rules_evolve g i hwf
      exact goodStep_trans h1 (IH (try_algebraic_rules g i).1 _ h1.1)
    · rw [if_neg ha]
      exact IH g ch hwf

theorem scan_evolve (g : Aig) (hwf : Wf g) : GoodStep g (scan g).1 :=
  scanGo_evolve (List.range g.nodes.length) g false hwf

theorem runO_evolve : ∀ (fuel : Nat) (g r : Aig), Wf g → runO fuel g = some r →
    GoodStep g r := by
  intro fuel
  induction fuel with
  | zero => intro g r _ h; cases h
  | succ f IH =>
    intro g r hwf h
    unfold runO at h
    by_cases hc : (scan g).2 = true
    · rw [if_pos hc] at h
      have h1 : GoodStep g (scan g).1 := scan_evolve g hwf
      exact goodStep_trans h1 (IH (scan g).1 r h1.1 h)
    · rw [if_neg hc] at h
      have hr : g = r := Option.some.inj h
      rw [← hr]
      exact goodStep_refl hwf

theorem scanGo_unchanged : ∀ (L : List Nat) (g : Aig) (ch : Bool),
    (scanGo L g ch).2 = false → (scanGo L g ch).1 = g ∧ ch = false := by
  intro L
  induction L with
  | nil => intro g ch h; exact ⟨rfl, h⟩
  | cons i rest IH =>
    intro g ch h
    unfold scanGo at h ⊢
    by_cases ha : aliveGate g i = true
    · rw [if_pos ha] at h ⊢
      obtain ⟨h1, h2⟩ := IH (try_algebraic_rules g i).1 _ h
      rw [Bool.or_eq_false_iff] at h2
      have h3 := try_algebraic_rules_no_fire h2.2
      exact ⟨h1.trans h3, h2.1⟩
    · rw [if_neg ha] at h ⊢
      exact IH g ch h

theorem runO_converged : ∀ (fuel : Nat) (g r : Aig), runO fuel g = some r →
    (scan r).2 = false ∧ (scan r).1 = r := by
  intro fuel
  induction fuel with
  | zero => intro g r h; cases h
  | succ f IH =>
    intro g r h
    unfold runO at h
    by_cases hc : (scan g).2 = true
    · rw [if_pos hc] at h
      exact IH (scan g).1 r h
    · rw [if_neg hc] at h
      have hr : g = r := Option.some.inj h
      have hf : (scan g).2 = false := Bool.not_eq_true _ |>.mp hc
      rw [← hr]
      exact ⟨hf, (scanGo_unchanged (List.range g.nodes.length) g false hf).1⟩

theorem scanIter_shift : ∀ (j : Nat) (g : Aig),
    scanIter (j + 1) g = scanIter j (scan g).1 := by
  intro j
  induction j with
  | zero => intro g; rfl
  | succ j IH =>
    intro g
    show (scan (scanIter (j + 1) g)).1 = (scan (scanIter j (scan g).1)).1
    rw [IH g]

theorem runCount_spec : ∀ (fuel : Nat) (g : Aig) (k : Nat), runCount fuel g = some k →
    (∀ j, j < k → (scan (scanIter j g)).2 = true) ∧
    (scan (scanIter k g)).2 = false ∧
    runO fuel g = some (scanIter k g) := by
  intro fuel
  induction fuel with
  | zero => intro g k h; cases h
  | succ f IH =>
    intro g k h
    unfold runCount at h
    by_cases hc : (scan g).2 = true
    · rw [if_pos hc] at h
      rw [Option.map_eq_some'] at h
      obtain ⟨k', hk', hkk⟩ := h
      obtain ⟨hj, hconv, hro⟩ := IH (scan g).1 k' hk'
      refine ⟨?_, ?_, ?_⟩
      · intro j hjk
        match j with
        | 0 => exact hc
        | j + 1 =>
          rw [scanIter_shift]
          exact hj j (by omega)
      · rw [← hkk, scanIter_shift]
        exact hconv
      · show runO (f + 1) g = some (scanIter k g)
        unfold runO
        rw [if_pos hc, ← hkk, scanIter_shift]
        exact hro
    · rw [if_neg hc] at h
      have hk : k = 0 := (Option.some.inj h).symm
      rw [hk]
      refine ⟨fun j hj => absurd hj (by omega), Bool.not_eq_true _ |>.mp hc, ?_⟩
      show runO (f + 1) g = some (scanIter 0 g)
      unfold runO
      rw [if_neg hc]
      rfl

theorem runCount_complete : ∀ (fuel : Nat) (g : Aig) (k : Nat), k < fuel →
    (∀ j, j < k → (scan (scanIter j g)).2 = true) →
    (scan (scanIter k g)).2 = false →
    runCount fuel g = some k := by
  intro fuel
  induction fuel with
  | zero => intro g k hk; omega
  | succ f IH =>
    intro g k hk hj hconv
    match k with
    | 0 =>
      unfold runCount
      rw [if_neg (by rw [show scanIter 0 g = g from rfl] at hconv; rw [hconv]; simp)]
    | k + 1 =>
      unfold runCount
      have h0 : (scan g).2 = true := hj 0 (by omega)
      rw [if_pos h0]
      have hrec : runCount f (scan g).1 = some k := by
        apply IH (scan g).1 k (by omega)
        · intro j hjl
          rw [← scanIter_shift]
          exact hj (j + 1) (by omega)
        · rw [← scanIter_shift]
          exact hconv
      rw [hrec]
      rfl

theorem assocMatch2_eq_iff {g : Aig} {sl sr l r rl rr : Signal} :
    assocMatch2 g sl sr = some (l, r, rl, rr) ↔
      (l = sl ∧ r = sr ∧ sr.inv = false ∧
       ∃ c d, g.nodes[sr.node]? = some (NodeDef.gate c d) ∧
         (rl, rr) = orientMin g c d ∧ lvl g rl.node ≠ lvl g rr.node) := by
  constructor
  · intro hm
    unfold assocMatch2 at hm
    by_cases hi : sr.inv = true
    · rw [if_pos hi] at hm
      cases hm
    · rw [if_neg hi] at hm
      cases hE : extract_and g sr.node with
      | none => rw [hE] at hm; cases hm
      | some pr =>
        obtain ⟨c0, d0⟩ := pr
        rw [hE] at hm
        dsimp only at hm
        have hget := extract_and_some.mp hE
        by_cases h1 : lvl g c0.node > lvl g d0.node
        · rw [if_pos h1] at hm
          simp only [Option.some.injEq, Prod.mk.injEq] at hm
          obtain ⟨e1, e2, e3, e4⟩ := hm
          refine ⟨e1.symm, e2.symm, by simpa using hi, c0, d0, hget, ?_, ?_⟩
          · unfold orientMin
            rw [if_pos h1, ← e3, ← e4]
          · rw [← e3, ← e4]
            omega
        · rw [if_neg h1] at hm
          by_cases h2 : lvl g c0.node = lvl g d0.node
          · rw [if_pos h2] at hm
            cases hm
          · rw [if_neg h2] at hm
            simp only [Option.some.injEq, Prod.mk.injEq] at hm
            obtain ⟨e1, e2, e3, e4⟩ := hm
            refine ⟨e1.symm, e2.symm, by simpa using hi, c0, d0, hget, ?_, ?_⟩
            · unfold orientMin
              rw [if_neg h1, ← e3, ← e4]
            · rw [← e3, ← e4]
              omega
  · rintro ⟨hl, hr, hrinv, c, d, hget, hmin, hne⟩
    subst hl
    subst hr
    unfold assocMatch2
    rw [if_neg (by rw [hrinv]; exact Bool.false_ne_true)]
    rw [extract_and_some.mpr hget]
    dsimp only
    unfold orientMin at hmin
    by_cases h1 : lvl g c.node > lvl g d.node
    · rw [if_pos h1] at hmin
      rw [if_pos h1]
      simp only [Prod.mk.injEq] at hmin
      rw [hmin.1, hmin.2]
    · rw [if_neg h1] at hmin
      simp only [Prod.mk.injEq] at hmin
      have h2 : lvl g c.node ≠ lvl g d.node := by
        rw [← hmin.1, ← hmin.2]
        exact hne
      rw [if_neg h1, if_neg h2, hmin.1, hmin.2]

theorem assocMatch_eq_iff {g : Aig} {n : Nat} {l r rl rr : Signal} :
    assocMatch g n = some (l, r, rl, rr) ↔ AssocFire g n l r rl rr := by
  constructor
  · intro hm
    unfold assocMatch at hm
    cases hE : extract_and g n with
    | none => rw [hE] at hm; cases hm
    | some pr =>
      obtain ⟨a0, b0⟩ := pr
      rw [hE] at hm
      dsimp only at hm
      have hget := extract_and_some.mp hE
      by_cases h1 : lvl g a0.node > lvl g b0.node + 1
      · rw [if_pos h1] at hm
        obtain ⟨e1, e2, hrinv, hrest⟩ := assocMatch2_eq_iff.mp hm
        refine ⟨a0, b0, hget, ?_, ?_, ?_, ?_⟩
        · unfold orient1
          rw [if_pos h1, e1, e2]
        · rw [e1, e2]
          omega
        · rw [e2]
          exact hrinv
        · rw [e2]
          exact hrest
      · rw [if_neg h1] at hm
        by_cases h2 : lvl g a0.node + 1 ≥ lvl g b0.node
        · rw [if_pos h2] at hm
          cases hm
        · rw [if_neg h2] at hm
          obtain ⟨e1, e2, hrinv, hrest⟩ := assocMatch2_eq_iff.mp hm
          refine ⟨a0, b0, hget, ?_, ?_, ?_, ?_⟩
          · unfold orient1
            rw [if_neg h1, e1, e2]
          · rw [e1, e2]
            omega
          · rw [e2]
            exact hrinv
          · rw [e2]
            exact hrest
  · rintro ⟨a, b, hget, hor, hgap, hrinv, hrest⟩
    unfold assocMatch
    rw [extract_and_some.mpr hget]
    dsimp only
    unfold orient1 at hor
    by_cases h1 : lvl g a.node > lvl g b.node + 1
    · rw [if_pos h1] at hor
      simp only [Prod.mk.injEq] at hor
      rw [if_pos h1]
      apply assocMatch2_eq_iff.mpr
      refine ⟨hor.1, hor.2, ?_, ?_⟩
      · rw [← hor.2]
        exact hrinv
      · rw [← hor.2]
        exact hrest
    · rw [if_neg h1] at hor
      simp only [Prod.mk.injEq] at hor
      have h2 : ¬(lvl g a.node + 1 ≥ lvl g b.node) := by
        rw [hor.1, hor.2] at hgap
        omega
      rw [if_neg h1, if_neg h2]
      apply assocMatch2_eq_iff.mpr
      refine ⟨hor.1, hor.2, ?_, ?_⟩
      · rw [← hor.2]
        exact hrinv
      · rw [← hor.2]
        exact hrest

theorem distMatch_eq_iff {g : Aig} {n : Nat} {sll slr srl srr : Signal} :
    distMatch g n = some (sll, slr, srl, srr) ↔ DistFire g n sll slr srl srr := by
  constructor
  · intro hm
    obtain ⟨a, b, hget, hainv, hbinv, p, q, u, v, hgp, hgq, hN, h1, h2, h3⟩ :=
      distMatch_inv hm
    exact ⟨a, b, hget, hainv, hbinv, p, q, u, v, hgp, hgq, hN, h1, h2, h3⟩
  · rintro ⟨a, b, hget, hainv, hbinv, p, q, u, v, hgp, hgq, hN, h1, h2, h3⟩
    unfold distMatch
    rw [extract_and_some.mpr hget]
    dsimp only
    rw [if_neg (by rw [hainv, hbinv]; simp)]
    rw [extract_and_some.mpr hgp]
    dsimp only
    rw [extract_and_some.mpr hgq]
    dsimp only
    rw [hN]
    dsimp only
    rw [if_neg (by omega), if_neg (by rw [h3]; simp)]

theorem tl3_eq_iff {g : Aig} {sl sr srl srr l r rl rr rrl rrr : Signal} :
    tl3 g sl sr srl srr = some (l, r, rl, rr, rrl, rrr) ↔
      (l = sl ∧ r = sr ∧ rl = srl ∧ rr = srr ∧ srr.inv = true ∧
       ∃ e f2, g.nodes[srr.node]? = some (NodeDef.gate e f2) ∧
         (rrl, rrr) = orientMin g e f2 ∧ lvl g rrl.node ≠ lvl g rrr.node) := by
  constructor
  · intro hm
    unfold tl3 at hm
    by_cases hi : srr.inv = false
    · rw [if_pos hi] at hm
      cases hm
    · rw [if_neg hi] at hm
      cases hE : extract_and g srr.node with
      | none => rw [hE] at hm; cases hm
      | some pr =>
        obtain ⟨e0, f0⟩ := pr
        rw [hE] at hm
        dsimp only at hm
        have hget := extract_and_some.mp hE
        have hinv : srr.inv = true := by
          cases hb : srr.inv
          · exact absurd hb hi
          · rfl
        by_cases h1 : lvl g e0.node > lvl g f0.node
        · rw [if_pos h1] at hm
          simp only [Option.some.injEq, Prod.mk.injEq] at hm
          obtain ⟨e1, e2, e3, e4, e5, e6⟩ := hm
          refine ⟨e1.symm, e2.symm, e3.symm, e4.symm, hinv, e0, f0, hget, ?_, ?_⟩
          · unfold orientMin
            rw [if_pos h1, ← e5, ← e6]
          · rw [← e5, ← e6]
            omega
        · rw [if_neg h1] at hm
          by_cases h2 : lvl g e0.node = lvl g f0.node
          · rw [if_pos h2] at hm
            cases hm
          · rw [if_neg h2] at hm
            simp only [Option.some.injEq, Prod.mk.injEq] at hm
            obtain ⟨e1, e2, e3, e4, e5, e6⟩ := hm
            refine ⟨e1.symm, e2.symm, e3.symm, e4.symm, hinv, e0, f0, hget, ?_, ?_⟩
            · unfold orientMin
              rw [if_neg h1, ← e5, ← e6]
            · rw [← e5, ← e6]
              omega
  · rintro ⟨hl, hr, hrl, hrr, hinv, e, f2, hget, hmin, hne⟩
    subst hl
    subst hr
    subst hrl
    subst hrr
    unfold tl3
    rw [if_neg (by rw [hinv]; simp)]
    rw [extract_and_some.mpr hget]
    dsimp only
    unfold orientMin at hmin
    by_cases h1 : lvl g e.node > lvl g f2.node
    · rw [if_pos h1] at hmin
      simp only [Prod.mk.injEq] at hmin
      rw [if_pos h1, hmin.1, hmin.2]
    · rw [if_neg h1] at hmin
      simp only [Prod.mk.injEq] at hmin
      have h2 : lvl g e.node ≠ lvl g f2.node := by
        rw [← hmin.1, ← hmin.2]
        exact hne
      rw [if_neg h1, if_neg h2, hmin.1, hmin.2]

theorem tl2_eq_iff {g : Aig} {sl sr l r rl rr rrl rrr : Signal} :
    tl2 g sl sr = some (l, r, rl, rr, rrl, rrr) ↔
      (l = sl ∧ r = sr ∧ sr.inv = true ∧
       ∃ c d, g.nodes[sr.node]? = some (NodeDef.gate c d) ∧
         (rl, rr) = orient1 g c d ∧ lvl g rl.node + 1 < lvl g rr.node ∧
         rr.inv = true ∧
         ∃ e f2, g.nodes[rr.node]? = some (NodeDef.gate e f2) ∧
           (rrl, rrr) = orientMin g e f2 ∧ lvl g rrl.node ≠ lvl g rrr.node) := by
  constructor
  · intro hm
    unfold tl2 at hm
    by_cases hi : sr.inv = false
    · rw [if_pos hi] at hm
      cases hm
    · rw [if_neg hi] at hm
      cases hE : extract_and g sr.node with
      | none => rw [hE] at hm; cases hm
      | some pr =>
        obtain ⟨c0, d0⟩ := pr
        rw [hE] at hm
        dsimp only at hm
        have hget := extract_and_some.mp hE
        have hinv : sr.inv = true := by
          cases hb : sr.inv
          · exact absurd hb hi
          · rfl
        by_cases h1 : lvl g c0.node > lvl g d0.node + 1
        · rw [if_pos h1] at hm
          obtain ⟨e1, e2, e3, e4, hrrinv, htail⟩ := tl3_eq_iff.mp hm
          refine ⟨e1, e2, hinv, c0, d0, hget, ?_, ?_, ?_, ?_⟩
          · unfold orient1
            rw [if_pos h1, e3, e4]
          · rw [e3, e4]
            omega
          · rw [e4]
            exact hrrinv
          · rw [e4]
            exact htail
        · rw [if_neg h1] at hm
          by_cases h2 : lvl g c0.node + 1 ≥ lvl g d0.node
          · rw [if_pos h2] at hm
            cases hm
          · rw [if_neg h2] at hm
            obtain ⟨e1, e2, e3, e4, hrrinv, htail⟩ := tl3_eq_iff.mp hm
            refine ⟨e1, e2, hinv, c0, d0, hget, ?_, ?_, ?_, ?_⟩
            · unfold orient1
              rw [if_neg h1, e3, e4]
            · rw [e3, e4]
              omega
            · rw [e4]
              exact hrrinv
            · rw [e4]
              exact htail
  · rintro ⟨hl, hr, hinv, c, d, hget, hor, hgap, hrrinv, htail⟩
    subst hl
    subst hr
    unfold tl2
    rw [if_neg (by rw [hinv]; simp)]
    rw [extract_and_some.mpr hget]
    dsimp only
    unfold orient1 at hor
    by_cases h1 : lvl g c.node > lvl g d.node + 1
    · rw [if_pos h1] at hor
      simp only [Prod.mk.injEq] at hor
      rw [if_pos h1]
      apply tl3_eq_iff.mpr
      refine ⟨rfl, rfl, hor.1, hor.2, ?_, ?_⟩
      · rw [← hor.2]
        exact hrrinv
      · rw [← hor.2]
        exact htail
    · rw [if_neg h1] at hor
      simp only [Prod.mk.injEq] at hor
      have h2 : ¬(lvl g c.node + 1 ≥ lvl g d.node) := by
        rw [hor.1, hor.2] at hgap
        omega
      rw [if_neg h1, if_neg h2]
      apply tl3_eq_iff.mpr
      refine ⟨rfl, rfl, hor.1, hor.2, ?_, ?_⟩
      · rw [← hor.2]
        exact hrrinv
      · rw [← hor.2]
        exact htail

theorem tlMatch_eq_iff {g : Aig} {n : Nat} {l r rl rr rrl rrr : Signal} :
    tlMatch g n = some (l, r, rl, rr, rrl, rrr) ↔ TlFire g n l r rl rr rrl rrr := by
  constructor
  · intro hm
    unfold tlMatch at hm
    cases hE : extract_and g n with
    | none => rw [hE] at hm; cases hm
    | some pr =>
      obtain ⟨a0, b0⟩ := pr
      rw [hE] at hm
      dsimp only at hm
      have hget := extract_and_some.mp hE
      by_cases h1 : lvl g a0.node > lvl g b0.node + 2
      · rw [if_pos h1] at hm
        obtain ⟨e1, e2, hrinv, hrest⟩ := tl2_eq_iff.mp hm
        refine ⟨a0, b0, hget, ?_, ?_, ?_, ?_⟩
        · unfold orient2
          rw [if_pos h1, e1, e2]
        · rw [e1, e2]
          omega
        · rw [e2]
          exact hrinv
        · rw [e2]
          exact hrest
      · rw [if_neg h1] at hm
        by_cases h2 : lvl g a0.node + 2 ≥ lvl g b0.node
        · rw [if_pos h2] at hm
          cases hm
        · rw [if_neg h2] at hm
          obtain ⟨e1, e2, hrinv, hrest⟩ := tl2_eq_iff.mp hm
          refine ⟨a0, b0, hget, ?_, ?_, ?_, ?_⟩
          · unfold orient2
            rw [if_neg h1, e1, e2]
          · rw [e1, e2]
            omega
          · rw [e2]
            exact hrinv
          · rw [e2]
            exact hrest
  · rintro ⟨a, b, hget, hor, hgap, hrinv, hrest⟩
    unfold tlMatch
    rw [extract_and_some.mpr hget]
    dsimp only
    unfold orient2 at hor
    by_cases h1 : lvl g a.node > lvl g b.node + 2
    · rw [if_pos h1] at hor
      simp only [Prod.mk.injEq] at hor
      rw [if_pos h1]
      apply tl2_eq_iff.mpr
      refine ⟨hor.1, hor.2, ?_, ?_⟩
      · rw [← hor.2]
        exact hrinv
      · rw [← hor.2]
        exact hrest
    · rw [if_neg h1] at hor
      simp only [Prod.mk.injEq] at hor
      have h2 : ¬(lvl g a.node + 2 ≥ lvl g b.node) := by
        rw [hor.1, hor.2] at hgap
        omega
      rw [if_neg h1, if_neg h2]
      apply tl2_eq_iff.mpr
      refine ⟨hor.1, hor.2, ?_, ?_⟩
      · rw [← hor.2]
        exact hrinv
      · rw [← hor.2]
        exact hrest

/-- C1: a full run of the rewriting engine preserves the Boolean function of
the circuit: on every well-formed graph and every primary-input assignment,
all output values are identical before and after the run; moreover each
single rule application (the first matching rule on any node) already leaves
every output value unchanged. -/
theorem aig_rewriting_preserves_outputs :
    (∀ (fuel : Nat) (g r : Aig), Wf g → runO fuel g = some r →
      ∀ env, evalOuts r env = evalOuts g env) ∧
    (∀ (g : Aig) (n : Nat), Wf g →
      ∀ env, evalOuts (try_algebraic_rules g n).1 env = evalOuts g env) := by
  constructor
  · intro fuel g r hwf h env
    exact (runO_evolve fuel g r hwf h).2.1 env
  · intro g n hwf env
    exact (rules_evolve g n hwf).2.1 env

theorem aig_rewriting_preserves_outputs_witness :
    wfB gA = true ∧ runO 3 gA = some (scanIter 1 gA) ∧
    evalOuts (scanIter 1 gA) (fun _ => true) = evalOuts gA (fun _ => true) :=
  ⟨by decide, by rfl,
    aig_rewriting_preserves_outputs.1 3 gA (scanIter 1 gA)
      (wf_of_wfB gA (by decide)) (by rfl) (fun _ => true)⟩

/-- C2: the maximum output depth after a full run is at most the maximum
output depth before the run, for every well-formed input graph. -/
theorem aig_rewriting_depth_non_increase :
    ∀ (fuel : Nat) (g r : Aig), Wf g → runO fuel g = some r →
      outDepth r ≤ outDepth g := by
  intro fuel g r hwf h
  exact (runO_evolve fuel g r hwf h).2.2

theorem aig_rewriting_depth_non_increase_witness :
    wfB gA = true ∧ runO 3 gA = some (scanIter 1 gA) ∧
    outDepth (scanIter 1 gA) ≤ outDepth gA :=
  ⟨by decide, by rfl,
    aig_rewriting_depth_non_increase 3 gA (scanIter 1 gA)
      (wf_of_wfB gA (by decide)) (by rfl)⟩

/-- C3: the associativity rule fires exactly under the claimed oriented
conditions, and when it fires it substitutes `n` with `AND(AND(l, rl), rr)`
(the network produced by `assocApply`). -/
theorem associativity_rule_characterization :
    ∀ (g : Aig) (n : Nat),
      ((try_associativity g n).2 = true ↔ ∃ l r rl rr, AssocFire g n l r rl rr) ∧
      (∀ l r rl rr, AssocFire g n l r rl rr →
        try_associativity g n = (assocApply g n l rl rr, true)) := by
  intro g n
  constructor
  · constructor
    · intro h
      obtain ⟨l, r, rl, rr, hm⟩ := try_associativity_fire h
      exact ⟨l, r, rl, rr, assocMatch_eq_iff.mp hm⟩
    · rintro ⟨l, r, rl, rr, hf⟩
      have hm := assocMatch_eq_iff.mpr hf
      unfold try_associativity
      rw [hm]
  · intro l r rl rr hf
    have hm := assocMatch_eq_iff.mpr hf
    unfold try_associativity
    rw [hm]

theorem associativity_rule_characterization_witness :
    (try_associativity gA 6).2 = true ∧ (∃ l r rl rr, AssocFire gA 6 l r rl rr) :=
  ⟨by decide, (associativity_rule_characterization gA 6).1.mp (by decide)⟩

/-- C4: the distributivity rule fires exactly under the claimed conditions
(both operands complemented ANDs, a shared node found by the fixed search
order, common factor strictly deeper than both distinct branches, matching
polarity), and then substitutes `n` with
`NAND(common, NAND(NOT distinct1, NOT distinct2))` (the network produced by
`distApply`). -/
theorem distributivity_rule_characterization :
    ∀ (g : Aig) (n : Nat),
      ((try_distributivity g n).2 = true ↔
        ∃ sll slr srl srr, DistFire g n sll slr srl srr) ∧
      (∀ sll slr srl srr, DistFire g n sll slr srl srr →
        try_distributivity g n = (distApply g n sll slr srr, true)) := by
  intro g n
  constructor
  · constructor
    · intro h
      obtain ⟨sll, slr, srl, srr, hm⟩ := try_distributivity_fire h
      exact ⟨sll, slr, srl, srr, distMatch_eq_iff.mp hm⟩
    · rintro ⟨sll, slr, srl, srr, hf⟩
      have hm := distMatch_eq_iff.mpr hf
      unfold try_distributivity
      rw [hm]
  · intro sll slr srl srr hf
    have hm := distMatch_eq_iff.mpr hf
    unfold try_distributivity
    rw [hm]

theorem distributivity_rule_characterization_witness :
    (try_distributivity gC5 6).2 = true ∧
    (∃ sll slr srl srr, DistFire gC5 6 sll slr srl srr) :=
  ⟨by decide, (distributivity_rule_characterization gC5 6).1.mp (by decide)⟩

/-- C5 (counterexample): at this concrete network the distributivity match
normalizes to the tuple `(A, B, C, D)` with shared node 3; the second
element of the right pair is node 1, which is not the shared node, refuting
the claim that after normalization the shared node is the second element of
each pair. -/
theorem dist_norm_right_pair_counterexample :
    distMatch gC5 6 = some (⟨0, false⟩, ⟨3, false⟩, ⟨3, false⟩, ⟨1, false⟩) ∧
    ((⟨1, false⟩ : Signal)).node ≠ ((⟨3, false⟩ : Signal)).node := by
  exact ⟨by decide, by decide⟩

/-- C5 (amended): the shared node is searched in the fixed order `A == D`,
`A == C`, `B == D`, and if none of those hold `B == C` is required; after
the normalizing swaps the shared node is the second element of the left
pair and the FIRST element of the right pair. -/
theorem dist_norm_search_order_and_common_position :
    (∀ A B C D : Signal,
      (A.node = D.node → distNorm A B C D = some (B, A, D, C)) ∧
      (A.node ≠ D.node → A.node = C.node → distNorm A B C D = some (B, A, C, D)) ∧
      (A.node ≠ D.node → A.node ≠ C.node → B.node = D.node →
        distNorm A B C D = some (A, B, D, C)) ∧
      (A.node ≠ D.node → A.node ≠ C.node → B.node ≠ D.node → B.node = C.node →
        distNorm A B C D = some (A, B, C, D)) ∧
      (A.node ≠ D.node → A.node ≠ C.node → B.node ≠ D.node → B.node ≠ C.node →
        distNorm A B C D = none)) ∧
    (∀ A B C D sll slr srl srr : Signal,
      distNorm A B C D = some (sll, slr, srl, srr) → slr.node = srl.node) := by
  constructor
  · intro A B C D
    refine ⟨?_, ?_, ?_, ?_, ?_⟩
    · intro h1
      unfold distNorm
      rw [if_pos h1]
    · intro h1 h2
      unfold distNorm
      rw [if_neg h1, if_pos h2]
    · intro h1 h2 h3
      unfold distNorm
      rw [if_neg h1, if_neg h2, if_pos h3]
    · intro h1 h2 h3 h4
      unfold distNorm
      rw [if_neg h1, if_neg h2, if_neg h3, if_pos h4]
    · intro h1 h2 h3 h4
      unfold distNorm
      rw [if_neg h1, if_neg h2, if_neg h3, if_neg h4]
  · intro A B C D sll slr srl srr h
    exact (distNorm_inv h).2.2

theorem dist_norm_search_order_witness :
    distNorm ⟨0, false⟩ ⟨3, false⟩ ⟨3, false⟩ ⟨1, false⟩ =
      some (⟨0, false⟩, ⟨3, false⟩, ⟨3, false⟩, ⟨1, false⟩) ∧
    ((⟨3, false⟩ : Signal)).node = ((⟨3, false⟩ : Signal)).node :=
  ⟨(dist_norm_search_order_and_common_position.1 ⟨0, false⟩ ⟨3, false⟩ ⟨3, false⟩
      ⟨1, false⟩).2.2.2.1 (by decide) (by decide) (by decide) (by decide),
   dist_norm_search_order_and_common_position.2 ⟨0, false⟩ ⟨3, false⟩ ⟨3, false⟩
      ⟨1, false⟩ ⟨0, false⟩ ⟨3, false⟩ ⟨3, false⟩ ⟨1, false⟩
      ((dist_norm_search_order_and_common_position.1 ⟨0, false⟩ ⟨3, false⟩ ⟨3, false⟩
        ⟨1, false⟩).2.2.2.1 (by decide) (by decide) (by decide) (by decide))⟩

/-- C6: the three-layer distributivity rule fires exactly under the claimed
oriented conditions and substitutes `n` with
`NAND(NAND(l, NOT rl), NAND(AND(l, rrl), rrr))` (the network produced by
`tlApply`), reusing the signal `l` twice. -/
theorem three_layer_rule_characterization :
    ∀ (g : Aig) (n : Nat),
      ((try_3l_distributivity g n).2 = true ↔
        ∃ l r rl rr rrl rrr, TlFire g n l r rl rr rrl rrr) ∧
      (∀ l r rl rr rrl rrr, TlFire g n l r rl rr rrl rrr →
        try_3l_distributivity g n = (tlApply g n l rl rrl rrr, true)) := by
  intro g n
  constructor
  · constructor
    · intro h
      obtain ⟨l, r, rl, rr, rrl, rrr, hm⟩ := try_3l_distributivity_fire h
      exact ⟨l, r, rl, rr, rrl, rrr, tlMatch_eq_iff.mp hm⟩
    · rintro ⟨l, r, rl, rr, rrl, rrr, hf⟩
      have hm := tlMatch_eq_iff.mpr hf
      unfold try_3l_distributivity
      rw [hm]
  · intro l r rl rr rrl rrr hf
    have hm := tlMatch_eq_iff.mpr hf
    unfold try_3l_distributivity
    rw [hm]

theorem three_layer_rule_characterization_witness :
    (try_3l_distributivity gT 6).2 = true ∧
    (∃ l r rl rr rrl rrr, TlFire gT 6 l r rl rr rrl rrr) :=
  ⟨by decide, (three_layer_rule_characterization gT 6).1.mp (by decide)⟩

/-- C7: rules are tried in the fixed priority order (associativity, then
distributivity, then three-layer distributivity) and only the first match
is committed; a fired node's substitution is visible to the very next
visited node in the same pass; and the driver halts exactly after the first
full scan in which no rule fired. -/
theorem driver_priority_and_halting :
    (∀ (g : Aig) (n : Nat),
      ((try_associativity g n).2 = true →
        try_algebraic_rules g n = try_associativity g n) ∧
      ((try_associativity g n).2 = false → (try_distributivity g n).2 = true →
        try_algebraic_rules g n = try_distributivity g n) ∧
      ((try_associativity g n).2 = false → (try_distributivity g n).2 = false →
        try_algebraic_rules g n = try_3l_distributivity g n)) ∧
    (∀ (i : Nat) (rest : List Nat) (g : Aig) (ch : Bool), aliveGate g i = true →
      scanGo (i :: rest) g ch =
        scanGo rest (try_algebraic_rules g i).1 (ch || (try_algebraic_rules g i).2)) ∧
    (∀ (fuel : Nat) (g : Aig) (k : Nat), runCount fuel g = some k →
      (∀ j, j < k → (scan (scanIter j g)).2 = true) ∧
      (scan (scanIter k g)).2 = false ∧ runO fuel g = some (scanIter k g)) ∧
    (∀ (fuel : Nat) (g : Aig) (k : Nat), k < fuel →
      (∀ j, j < k → (scan (scanIter j g)).2 = true) →
      (scan (scanIter k g)).2 = false → runCount fuel g = some k) := by
  refine ⟨?_, ?_, runCount_spec, runCount_complete⟩
  · intro g n
    refine ⟨?_, ?_, ?_⟩
    · intro h1
      unfold try_algebraic_rules
      rw [if_pos h1]
    · intro h1 h2
      unfold try_algebraic_rules
      rw [if_neg (by rw [h1]; exact Bool.false_ne_true), if_pos h2]
    · intro h1 h2
      unfold try_algebraic_rules
      rw [if_neg (by rw [h1]; exact Bool.false_ne_true),
          if_neg (by rw [h2]; exact Bool.false_ne_true)]
  · intro i rest g ch ha
    show (if aliveGate g i = true then
        scanGo rest (try_algebraic_rules g i).1 (ch || (try_algebraic_rules g i).2)
      else scanGo rest g ch) =
      scanGo rest (try_algebraic_rules g i).1 (ch || (try_algebraic_rules g i).2)
    rw [if_pos ha]

theorem driver_priority_and_halting_witness :
    try_algebraic_rules gA 6 = try_associativity gA 6 ∧
    (scan (scanIter 1 gA)).2 = false ∧ runO 3 gA = some (scanIter 1 gA) := by
  have h1 := (driver_priority_and_halting.1 gA 6).1 (by decide)
  have h2 := driver_priority_and_halting.2.2.1 3 gA 1 (by decide)
  exact ⟨h1, h2.2.1, h2.2.2⟩

/-- C8: a rule that reports no match leaves the network unchanged, and a
rule that fires produces exactly the substitution of `n` by a replacement
signal whose entire subgraph was appended to the arena beforehand. -/
theorem rule_atomicity :
    ∀ (g : Aig) (n : Nat),
      ((try_associativity g n).2 = false → (try_associativity g n).1 = g) ∧
      ((try_distributivity g n).2 = false → (try_distributivity g n).1 = g) ∧
      ((try_3l_distributivity g n).2 = false → (try_3l_distributivity g n).1 = g) ∧
      ((try_algebraic_rules g n).2 = false → (try_algebraic_rules g n).1 = g) ∧
      ((try_algebraic_rules g n).2 = true →
        ∃ (news : List NodeDef) (t : Signal), news ≠ [] ∧
          t.node < g.nodes.length + news.length ∧
          (try_algebraic_rules g n).1 = commitAig g n news t) := by
  intro g n
  refine ⟨try_associativity_no_fire, try_distributivity_no_fire,
    try_3l_distributivity_no_fire, try_algebraic_rules_no_fire, ?_⟩
  intro h
  unfold try_algebraic_rules at h ⊢
  by_cases h1 : (try_associativity g n).2 = true
  · rw [if_pos h1] at h ⊢
    obtain ⟨l, r, rl, rr, hm⟩ := try_associativity_fire h1
    refine ⟨[NodeDef.gate l rl, NodeDef.gate ⟨g.nodes.length, false⟩ rr],
      ⟨g.nodes.length + 1, false⟩, by simp, ?_, ?_⟩
    · show g.nodes.length + 1 < g.nodes.length + 2
      omega
    · unfold try_associativity
      rw [hm]
      exact assocApply_eq_commit g n l rl rr
  · rw [if_neg h1] at h ⊢
    by_cases h2 : (try_distributivity g n).2 = true
    · rw [if_pos h2] at h ⊢
      obtain ⟨sll, slr, srl, srr, hm⟩ := try_distributivity_fire h2
      refine ⟨[NodeDef.gate ⟨sll.node, !sll.inv⟩ ⟨srr.node, !srr.inv⟩,
          NodeDef.gate slr ⟨g.nodes.length, true⟩],
        ⟨g.nodes.length + 1, true⟩, by simp, ?_, ?_⟩
      · show g.nodes.length + 1 < g.nodes.length + 2
        omega
      · unfold try_distributivity
        rw [hm]
        exact distApply_eq_commit g n sll slr srr
    · rw [if_neg h2] at h ⊢
      obtain ⟨l, r, rl, rr, rrl, rrr, hm⟩ := try_3l_distributivity_fire h
      refine ⟨[NodeDef.gate l ⟨rl.node, !rl.inv⟩, NodeDef.gate l rrl,
          NodeDef.gate ⟨g.nodes.length + 1, false⟩ rrr,
          NodeDef.gate ⟨g.nodes.length, true⟩ ⟨g.nodes.length + 2, true⟩],
        ⟨g.nodes.length + 3, true⟩, by simp, ?_, ?_⟩
      · show g.nodes.length + 3 < g.nodes.length + 4
        omega
      · unfold try_3l_distributivity
        rw [hm]
        exact tlApply_eq_commit g n l rl rrl rrr

theorem rule_atomicity_witness :
    (try_associativity gC5 3).1 = gC5 ∧
    (∃ (news : List NodeDef) (t : Signal), news ≠ [] ∧
      t.node < gC5.nodes.length + news.length ∧
      (try_algebraic_rules gC5 6).1 = commitAig gC5 6 news t) :=
  ⟨(rule_atomicity gC5 3).1 (by decide), (rule_atomicity gC5 6).2.2.2.2 (by decide)⟩

/-- C9: the engine is idempotent: whenever a run halts (converges), the scan
of the resulting network fires no rule and changes nothing, so a second run
returns immediately with the same network. -/
theorem run_idempotent :
    ∀ (fuel : Nat) (g r : Aig), runO fuel g = some r →
      (scan r).2 = false ∧ (scan r).1 = r ∧ runO 1 r = some r := by
  intro fuel g r h
  obtain ⟨h1, h2⟩ := runO_converged fuel g r h
  refine ⟨h1, h2, ?_⟩
  have hstep : runO 1 r = if (scan r).2 = true then runO 0 (scan r).1 else some r := rfl
  rw [hstep, if_neg (by rw [h1]; exact Bool.false_ne_true)]

theorem run_idempotent_witness :
    (scan gF).2 = false ∧ (scan gF).1 = gF ∧ runO 1 gF = some gF :=
  run_idempotent 1 gF gF (by rfl)

/-- C10: whenever a rule fires on node `n` of a well-formed graph, the level
of the replacement node in the updated graph is strictly smaller than the
level `n` had before the rewrite. -/
theorem local_depth_decrease :
    ∀ (g : Aig) (n : Nat), Wf g →
      (∀ l r rl rr, assocMatch g n = some (l, r, rl, rr) →
        lvl (try_associativity g n).1 (g.nodes.length + 1) < lvl g n) ∧
      (∀ sll slr srl srr, distMatch g n = some (sll, slr, srl, srr) →
        lvl (try_distributivity g n).1 (g.nodes.length + 1) < lvl g n) ∧
      (∀ l r rl rr rrl rrr, tlMatch g n = some (l, r, rl, rr, rrl, rrr) →
        lvl (try_3l_distributivity g n).1 (g.nodes.length + 3) < lvl g n) := by
  intro g n hwf
  refine ⟨?_, ?_, ?_⟩
  · intro l r rl rr hm
    exact (assoc_step hwf hm).2
  · intro sll slr srl srr hm
    exact (dist_step hwf hm).2
  · intro l r rl rr rrl rrr hm
    exact (tl_step hwf hm).2

theorem local_depth_decrease_witness :
    lvl (try_associativity gA 6).1 (gA.nodes.length + 1) < lvl gA 6 ∧
    lvl (try_distributivity gC5 6).1 (gC5.nodes.length + 1) < lvl gC5 6 ∧
    lvl (try_3l_distributivity gT 6).1 (gT.nodes.length + 3) < lvl gT 6 :=
  ⟨(local_depth_decrease gA 6 (wf_of_wfB gA (by decide))).1
      ⟨0, false⟩ ⟨5, false⟩ ⟨1, false⟩ ⟨4, false⟩ (by decide),
   (local_depth_decrease gC5 6 (wf_of_wfB gC5 (by decide))).2.1
      ⟨0, false⟩ ⟨3, false⟩ ⟨3, false⟩ ⟨1, false⟩ (by decide),
   (local_depth_decrease gT 6 (wf_of_wfB gT (by decide))).2.2
      ⟨0, false⟩ ⟨5, true⟩ ⟨1, false⟩ ⟨4, true⟩ ⟨1, false⟩ ⟨3, false⟩ (by decide)⟩
